import Mathlib

/-!
Verification of the iFix patch-container parser and disassembler
(`src/parse.py`).  The byte stream is modelled as `List Nat` (one entry per
byte), Python `int` as `Int`/`Nat`, and the forward-only `BytesIO` cursor as
functions consuming a list suffix.  Python strings read from the stream are
represented by their raw byte content (`List Nat`): `bytes.decode` with
`errors='replace'` never fails and does not move the cursor, so the record
structure and all cursor movement are unaffected by this choice.
-/

/-- Runtime failures of the Python code that abort a parse or a rendering
call: `EOFError`, `struct.error`, and `IndexError`. -/
inductive PyErr where
  | eofErr
  | structErr
  | indexErr
deriving DecidableEq

/-- Two's-complement reading of a 32-bit pattern (`struct.unpack` format
`<i`). -/
def toSigned32 (u : Nat) : Int :=
  if u < 2 ^ 31 then (u : Int) else (u : Int) - 2 ^ 32

/-- Two's-complement reading of a 64-bit pattern (`struct.unpack` format
`<q`). -/
def toSigned64 (u : Nat) : Int :=
  if u < 2 ^ 63 then (u : Int) else (u : Int) - 2 ^ 64

/-- The 32-bit two's-complement pattern of an `Int` (`struct.pack '<i'`,
defined for any integer; packing in Python fails outside the int32 range and
that failure is modelled at each use site). -/
def toU32 (n : Int) : Nat := (n % 2 ^ 32).toNat

/-- The `BinaryReader` state: each read consumes a prefix of the remaining
byte list.  `Except` models Python exceptions escaping the read. -/
def P (α : Type) : Type := List Nat → Except PyErr (α × List Nat)

def P.pure (a : α) : P α := fun s => .ok (a, s)

def P.bind (m : P α) (f : α → P β) : P β := fun s =>
  match m s with
  | .error e => .error e
  | .ok (a, s') => f a s'

instance : Monad P where
  pure := P.pure
  bind := P.bind

/-- `BinaryReader.read_byte`: one byte or `EOFError`. -/
def read_byte : P Nat := fun s =>
  match s with
  | [] => .error .eofErr
  | b :: rest => .ok (b, rest)

/-- `BinaryReader.read_bool`: one byte, nonzero is true. -/
def read_bool : P Bool := do
  let b ← read_byte
  pure (b != 0)

/-- `BinaryReader.read_int`: `struct.unpack('<i', stream.read(4))`; fewer
than 4 remaining bytes raise `struct.error`. -/
def read_int : P Int := fun s =>
  match s with
  | b0 :: b1 :: b2 :: b3 :: rest =>
      .ok (toSigned32 (b0 + 256 * b1 + 65536 * b2 + 16777216 * b3), rest)
  | _ => .error .structErr

/-- `struct.unpack('<i', …)` of four little-endian bytes (the decoding step
shared by `read_int`, `iter_unpack('<ii', …)` and `unpack('<iiiiii', …)`). -/
def ts32 (b0 b1 b2 b3 : Nat) : Int :=
  toSigned32 (b0 + 256 * b1 + 65536 * b2 + 16777216 * b3)

/-- `BinaryReader.read_ulong`: `struct.unpack('<Q', stream.read(8))`. -/
def read_ulong : P Nat := fun s =>
  match s with
  | b0 :: b1 :: b2 :: b3 :: b4 :: b5 :: b6 :: b7 :: rest =>
      .ok (b0 + 256 * b1 + 65536 * b2 + 16777216 * b3 + 4294967296 * b4 +
           1099511627776 * b5 + 281474976710656 * b6 +
           72057594037927936 * b7, rest)
  | _ => .error .structErr

/-- `struct.iter_unpack('<ii', raw)`: consecutive 8-byte groups decoded as
pairs of signed little-endian 32-bit integers. -/
def decodePairs : List Nat → List (Int × Int)
  | b0 :: b1 :: b2 :: b3 :: b4 :: b5 :: b6 :: b7 :: rest =>
      (toSigned32 (b0 + 256 * b1 + 65536 * b2 + 16777216 * b3),
       toSigned32 (b4 + 256 * b5 + 65536 * b6 + 16777216 * b7))
        :: decodePairs rest
  | _ => []

/-- `BinaryReader.read_instructions`.  `stream.read(8*count)` with a negative
`count` returns the whole remainder (after which `iter_unpack` raises
`struct.error` unless its length is a multiple of 8); otherwise fewer than
`8*count` bytes raise `EOFError("Incomplete instructions")`. -/
def read_instructions (count : Int) : P (List (Int × Int)) := fun s =>
  if count < 0 then
    if s.length % 8 = 0 then .ok (decodePairs s, []) else .error .structErr
  else if s.length < 8 * count.toNat then .error .eofErr
  else .ok (decodePairs (s.take (8 * count.toNat)), s.drop (8 * count.toNat))

/-- The base-128 varint loop inside `BinaryReader.read_string`:
`length |= (byte & 0x7F) << shift`, stop when the high bit is clear. -/
def readVarint : List Nat → Nat → Nat → Except PyErr (Nat × List Nat)
  | [], _, _ => .error .eofErr
  | b :: rest, acc, shift =>
      let acc' := acc ||| ((b &&& 127) <<< shift)
      if b &&& 128 = 0 then .ok (acc', rest)
      else readVarint rest acc' (shift + 7)

/-- `BinaryReader.read_string`: varint length then `stream.read(length)`.
`BytesIO.read` returns at most `length` bytes, silently fewer at the end of
the buffer; the decode-with-replacement step is dropped (the raw bytes are
kept, see the module comment). -/
def read_string : P (List Nat) := fun s =>
  match readVarint s 0 0 with
  | .error e => .error e
  | .ok (len, rest) =>
      if len = 0 then .ok ([], rest)
      else .ok (rest.take len, rest.drop len)

/-- One exception-handler record:
`struct.unpack('<iiiiii', r.stream.read(24))`; fewer than 24 remaining bytes
raise `struct.error`. -/
structure EhRec where
  flag : Int
  catchType : Int
  tryStart : Int
  tryEnd : Int
  handlerStart : Int
  handlerEnd : Int
deriving DecidableEq

def readEh : P EhRec := fun s =>
  match s with
  | b0 :: b1 :: b2 :: b3 :: b4 :: b5 :: b6 :: b7 :: b8 :: b9 :: b10 :: b11 ::
    b12 :: b13 :: b14 :: b15 :: b16 :: b17 :: b18 :: b19 :: b20 :: b21 ::
    b22 :: b23 :: rest =>
      .ok (⟨ts32 b0 b1 b2 b3, ts32 b4 b5 b6 b7, ts32 b8 b9 b10 b11,
            ts32 b12 b13 b14 b15, ts32 b16 b17 b18 b19,
            ts32 b20 b21 b22 b23⟩, rest)
  | _ => .error .structErr

/-- `struct.unpack('<ii', r.stream.read(8))`: one static-field pair;
fewer than 8 remaining bytes raise `struct.error`. -/
def readStaticField : P (Int × Int) := fun s =>
  match s with
  | b0 :: b1 :: b2 :: b3 :: b4 :: b5 :: b6 :: b7 :: rest =>
      .ok ((ts32 b0 b1 b2 b3, ts32 b4 b5 b6 b7), rest)
  | _ => .error .structErr

/-- `r.stream.read(8)` used only for its cursor effect (the `is_new` filler):
lenient at the end of the buffer. -/
def skip8 : P Unit := fun s => .ok ((), s.drop 8)

/-- `{'instructions': …, 'exceptions': …}` for one method body. -/
structure MethodRec where
  instructions : List (Int × Int)
  exceptions : List EhRec
deriving DecidableEq

/-- One `p.extern_methods` entry.  The table is spelled `ext_…` in this file
because `extern` cannot be used in Lean names. -/
structure ExtMethodRec where
  name : List Nat
  type_id : Int
  params : List Int
  generic_args : List Int
  is_generic : Bool
deriving DecidableEq

/-- One `p.fields` entry. -/
structure FieldRec where
  name : List Nat
  type_id : Int
  is_new : Bool
deriving DecidableEq

/-- One `p.anon_storeys` entry: the dict built at line 407 keeps only
`fields`, `ctor` and `vtable`. -/
structure AnonStoreyRec where
  fields : List Int
  ctor : Int
  vtable : List Int
deriving DecidableEq

/-- One `p.fix_infos` entry. -/
structure FixInfoRec where
  name : List Nat
  type_id : Int
  params : List Int
  generic_args : List Int
  patch_id : Int
  is_generic : Bool
deriving DecidableEq

/-- The `PatchFile` container. -/
structure PatchFile where
  magic : Nat
  bridge_name : List Nat
  wrappers_manager_name : List Nat
  assembly_string : List Nat
  ext_types : List (List Nat)
  ext_methods : List ExtMethodRec
  intern_strings : List (List Nat)
  fields : List FieldRec
  static_fields : List (Int × Int)
  anon_storeys : List AnonStoreyRec
  fix_infos : List FixInfoRec
  new_classes : List (List Nat)
  methods : List MethodRec
deriving DecidableEq

/-- `for _ in range(n): xs.append(reader())`. -/
def readN (reader : P α) : Nat → P (List α)
  | 0 => pure []
  | n + 1 => do
      let x ← reader
      let xs ← readN reader n
      pure (x :: xs)

/-- An `int32` count followed by that many records
(`for _ in range(r.read_int())`); a negative count yields an empty loop. -/
def readCounted (reader : P α) : P (List α) := do
  let n ← read_int
  readN reader n.toNat

/-- One method body (lines 346-355): instruction-slot count, slots, handler
count, handler records. -/
def readMethod : P MethodRec := do
  let code_len ← read_int
  let insts ← read_instructions code_len
  let eh_count ← read_int
  let ehs ← readN readEh eh_count.toNat
  pure ⟨insts, ehs⟩

/-- The tagged parameter loop of a generic method descriptor: a leading bool
selects placeholder-string (read and discarded) or type id (kept). -/
def readParamsGen : Nat → P (List Int)
  | 0 => pure []
  | n + 1 => do
      let tag ← read_bool
      if tag then do
        let _ ← read_string
        readParamsGen n
      else do
        let v ← read_int
        let vs ← readParamsGen n
        pure (v :: vs)

/-- One extern-method record (lines 357-378). -/
def readExtMethod : P ExtMethodRec := do
  let is_generic ← read_bool
  let decl_type ← read_int
  let name ← read_string
  if is_generic then do
    let gn ← read_int
    let gen_args ← readN read_int gn.toNat
    let pn ← read_int
    let params ← readParamsGen pn.toNat
    pure ⟨name, decl_type, params, gen_args, true⟩
  else do
    let pn ← read_int
    let params ← readN read_int pn.toNat
    pure ⟨name, decl_type, params, [], false⟩

/-- One field record (lines 384-390), with the conditional 8-byte skip for
`is_new`. -/
def readField : P FieldRec := do
  let is_new ← read_bool
  let decl ← read_int
  let name ← read_string
  if is_new then do
    skip8
    pure ⟨name, decl, true⟩
  else
    pure ⟨name, decl, false⟩

/-- One anonymous-storey record (lines 395-407): note the extra int32
(`ctor_p`) read after the constructor id, and that the interface list
(`itfs`) is read but not retained in the record built at line 407. -/
def readAnonStorey : P AnonStoreyRec := do
  let fn ← read_int
  let f_types ← readN read_int fn.toNat
  let ctor ← read_int
  let _ctor_p ← read_int
  let itn ← read_int
  let _itfs ← readN read_int itn.toNat
  let vn ← read_int
  let vtable ← readN read_int vn.toNat
  pure ⟨f_types, ctor, vtable⟩

/-- One fix-info record (lines 412-436). -/
def readFixInfo : P FixInfoRec := do
  let is_gen ← read_bool
  let decl ← read_int
  let name ← read_string
  let gp ← (if is_gen then do
      let gn ← read_int
      let gen_args ← readN read_int gn.toNat
      let pn ← read_int
      let params ← readParamsGen pn.toNat
      pure (gen_args, params)
    else do
      let pn ← read_int
      let params ← readN read_int pn.toNat
      pure (([] : List Int), params))
  let patch_id ← read_int
  pure ⟨name, decl, gp.2, gp.1, patch_id, is_gen⟩

/-- `PatchParser.parse` (lines 335-442): the fixed section order. -/
def parse : P PatchFile := do
  let magic ← read_ulong
  let bridge_name ← read_string
  let ext_types ← readCounted read_string
  let methods ← readCounted readMethod
  let ext_methods ← readCounted readExtMethod
  let intern_strings ← readCounted read_string
  let fields ← readCounted readField
  let static_fields ← readCounted readStaticField
  let anon_storeys ← readCounted readAnonStorey
  let wrappers ← read_string
  let assembly ← read_string
  let fix_infos ← readCounted readFixInfo
  let new_classes ← readCounted read_string
  pure ⟨magic, bridge_name, wrappers, assembly, ext_types, ext_methods,
        intern_strings, fields, static_fields, anon_storeys, fix_infos,
        new_classes, methods⟩

/-- The anonymous-storey record as claim C3 describes it: exactly four
components, all retained.  Modelled from the spec text, for comparison with
`readAnonStorey` (which is translated from the code). -/
structure AnonStoreyFourRec where
  fields : List Int
  ctor : Int
  interfaces : List Int
  vtable : List Int
deriving DecidableEq

/-- Follows the claim text for C3 ("reading exactly four components in
order"): count-prefixed field type ids, one int32 constructor method id,
count-prefixed implemented-interface ids, count-prefixed vtable method
ids. -/
def readAnonStoreyFour : P AnonStoreyFourRec := do
  let f_types ← readCounted read_int
  let ctor ← read_int
  let itfs ← readCounted read_int
  let vtable ← readCounted read_int
  pure ⟨f_types, ctor, itfs, vtable⟩

/-- Little-endian 4-byte encoding of an int32 (inverse of `read_int`). -/
def encInt32 (n : Int) : List Nat :=
  [toU32 n % 256, toU32 n / 256 % 256, toU32 n / 65536 % 256,
   toU32 n / 16777216 % 256]

/-- Little-endian 8-byte encoding of a uint64 (inverse of `read_ulong`). -/
def encU64 (m : Nat) : List Nat :=
  [m % 256, m / 256 % 256, m / 65536 % 256, m / 16777216 % 256,
   m / 4294967296 % 256, m / 1099511627776 % 256,
   m / 281474976710656 % 256, m / 72057594037927936 % 256]

/-- Base-128 varint encoding, least-significant 7-bit group first.  The fuel
argument (initially `n` itself) bounds the recursion; it never runs out
because `n / 128 < n ≤ fuel` whenever `128 ≤ n`. -/
def encVarintGo : Nat → Nat → List Nat
  | 0, n => [n]
  | fuel + 1, n =>
      if n < 128 then [n] else (n % 128 + 128) :: encVarintGo fuel (n / 128)

def encVarint (n : Nat) : List Nat := encVarintGo n n

/-- Varint byte length then the raw string bytes. -/
def encStr (s : List Nat) : List Nat := encVarint s.length ++ s

def encBool (b : Bool) : List Nat := [if b then 1 else 0]

def encPair (q : Int × Int) : List Nat := encInt32 q.1 ++ encInt32 q.2

def encEh (e : EhRec) : List Nat :=
  encInt32 e.flag ++ encInt32 e.catchType ++ encInt32 e.tryStart ++
  encInt32 e.tryEnd ++ encInt32 e.handlerStart ++ encInt32 e.handlerEnd

/-- `int32 count` then the concatenated record encodings. -/
def encCounted (enc : α → List Nat) (l : List α) : List Nat :=
  encInt32 l.length ++ (l.map enc).flatten

def encMethod (m : MethodRec) : List Nat :=
  encCounted encPair m.instructions ++ encCounted encEh m.exceptions

/-- A generic-tagged parameter entry carrying a type id (tag byte 0). -/
def encParamId (v : Int) : List Nat := encBool false ++ encInt32 v

def encExtMethod (m : ExtMethodRec) : List Nat :=
  encBool m.is_generic ++ encInt32 m.type_id ++ encStr m.name ++
  (if m.is_generic then
    encCounted encInt32 m.generic_args ++ encCounted encParamId m.params
  else
    encCounted encInt32 m.params)

def encField (f : FieldRec) : List Nat :=
  encBool f.is_new ++ encInt32 f.type_id ++ encStr f.name ++
  (if f.is_new then List.replicate 8 0 else [])

/-- Five stream components per storey record, mirroring what
`readAnonStorey` consumes: field-type list, ctor id, the extra int32, an
interface list (empty here since the parsed record does not retain one), and
the vtable list. -/
def encAnonStorey (a : AnonStoreyRec) : List Nat :=
  encCounted encInt32 a.fields ++ encInt32 a.ctor ++ encInt32 0 ++
  encCounted encInt32 ([] : List Int) ++ encCounted encInt32 a.vtable

def encFixInfo (f : FixInfoRec) : List Nat :=
  encBool f.is_generic ++ encInt32 f.type_id ++ encStr f.name ++
  (if f.is_generic then
    encCounted encInt32 f.generic_args ++ encCounted encParamId f.params
  else
    encCounted encInt32 f.params) ++ encInt32 f.patch_id

/-- A canonical byte encoding of a whole container, following the section
order of the format contract. -/
def encodePatch (p : PatchFile) : List Nat :=
  encU64 p.magic ++ encStr p.bridge_name ++
  encCounted encStr p.ext_types ++
  encCounted encMethod p.methods ++
  encCounted encExtMethod p.ext_methods ++
  encCounted encStr p.intern_strings ++
  encCounted encField p.fields ++
  encCounted encPair p.static_fields ++
  encCounted encAnonStorey p.anon_storeys ++
  encStr p.wrappers_manager_name ++ encStr p.assembly_string ++
  encCounted encFixInfo p.fix_infos ++
  encCounted encStr p.new_classes

/-- `n` fits in a signed 32-bit slot. -/
abbrev int32Ok (n : Int) : Prop := -(2 ^ 31) ≤ n ∧ n < 2 ^ 31

/-- A table fits behind an int32 element count. -/
abbrev cntOk (l : List α) : Prop := l.length < 2 ^ 31

abbrev ehOk (e : EhRec) : Prop :=
  int32Ok e.flag ∧ int32Ok e.catchType ∧ int32Ok e.tryStart ∧
  int32Ok e.tryEnd ∧ int32Ok e.handlerStart ∧ int32Ok e.handlerEnd

abbrev methodOk (m : MethodRec) : Prop :=
  cntOk m.instructions ∧ (∀ q ∈ m.instructions, int32Ok q.1 ∧ int32Ok q.2) ∧
  cntOk m.exceptions ∧ ∀ e ∈ m.exceptions, ehOk e

abbrev extMethodOk (m : ExtMethodRec) : Prop :=
  int32Ok m.type_id ∧ cntOk m.params ∧ (∀ v ∈ m.params, int32Ok v) ∧
  cntOk m.generic_args ∧ (∀ v ∈ m.generic_args, int32Ok v) ∧
  (m.is_generic = false → m.generic_args = [])

abbrev fieldOk (f : FieldRec) : Prop := int32Ok f.type_id

abbrev anonOk (a : AnonStoreyRec) : Prop :=
  cntOk a.fields ∧ (∀ v ∈ a.fields, int32Ok v) ∧ int32Ok a.ctor ∧
  cntOk a.vtable ∧ ∀ v ∈ a.vtable, int32Ok v

abbrev fixInfoOk (f : FixInfoRec) : Prop :=
  int32Ok f.type_id ∧ cntOk f.params ∧ (∀ v ∈ f.params, int32Ok v) ∧
  cntOk f.generic_args ∧ (∀ v ∈ f.generic_args, int32Ok v) ∧
  (f.is_generic = false → f.generic_args = []) ∧ int32Ok f.patch_id

abbrev pairOk (q : Int × Int) : Prop := int32Ok q.1 ∧ int32Ok q.2

/-- Well-formed container: every numeric field fits its slot and every table
fits behind its int32 count (a non-generic descriptor stores no generic
argument list, exactly as `parse` produces). -/
abbrev WF (p : PatchFile) : Prop :=
  p.magic < 2 ^ 64 ∧
  cntOk p.ext_types ∧
  cntOk p.methods ∧ (∀ m ∈ p.methods, methodOk m) ∧
  cntOk p.ext_methods ∧ (∀ m ∈ p.ext_methods, extMethodOk m) ∧
  cntOk p.intern_strings ∧
  cntOk p.fields ∧ (∀ f ∈ p.fields, fieldOk f) ∧
  cntOk p.static_fields ∧ (∀ q ∈ p.static_fields, pairOk q) ∧
  cntOk p.anon_storeys ∧ (∀ a ∈ p.anon_storeys, anonOk a) ∧
  cntOk p.fix_infos ∧ (∀ f ∈ p.fix_infos, fixInfoOk f) ∧
  cntOk p.new_classes

/-- `m.runs pre a`: the reader consumes exactly `pre`, produces `a`, and
leaves any continuation bytes untouched. -/
def P.runs (m : P α) (pre : List Nat) (a : α) : Prop :=
  ∀ rest, m (pre ++ rest) = .ok (a, rest)

theorem P.runs_bind {m : P α} {f : α → P β} {pre pre' a b}
    (hm : m.runs pre a) (hf : (f a).runs pre' b) :
    (m >>= f).runs (pre ++ pre') b := by
  intro rest
  show P.bind m f ((pre ++ pre') ++ rest) = .ok (b, rest)
  rw [List.append_assoc]
  unfold P.bind
  rw [hm]
  exact hf rest

theorem P.runs_cast {m : P α} {pre pre' : List Nat} {a}
    (hm : m.runs pre a) (h : pre = pre') : m.runs pre' a := h ▸ hm

theorem P.runs_bind_pure {m : P α} {pre a} (f : α → β) (hm : m.runs pre a) :
    (m >>= fun x => Pure.pure (f x)).runs pre (f a) := by
  intro rest
  show P.bind m _ (pre ++ rest) = _
  unfold P.bind
  rw [hm]
  rfl

theorem read_byte_runs (b : Nat) : read_byte.runs [b] b := fun _ => rfl

theorem read_bool_runs (b : Bool) : read_bool.runs (encBool b) b := by
  intro rest
  cases b <;> rfl

theorem toSigned32_enc (n : Int) (h : int32Ok n) :
    toSigned32 (toU32 n % 256 + 256 * (toU32 n / 256 % 256) +
      65536 * (toU32 n / 65536 % 256) +
      16777216 * (toU32 n / 16777216 % 256)) = n := by
  obtain ⟨h1, h2⟩ := h
  unfold toSigned32 toU32
  split <;> omega

theorem read_int_runs (n : Int) (h : int32Ok n) :
    read_int.runs (encInt32 n) n := by
  intro rest
  show read_int (encInt32 n ++ rest) = _
  simp only [encInt32, List.cons_append, List.nil_append, read_int]
  rw [toSigned32_enc n h]

theorem read_ulong_runs (m : Nat) (h : m < 2 ^ 64) :
    read_ulong.runs (encU64 m) m := by
  intro rest
  show read_ulong (encU64 m ++ rest) = _
  simp only [encU64, List.cons_append, List.nil_append, read_ulong,
    Except.ok.injEq, Prod.mk.injEq, and_true]
  omega

/-- Folding one 7-bit group into the accumulator: the bitwise-or in
`length |= group << shift` is an addition since the groups are disjoint. -/
theorem or_shift_add (acc m shift : Nat) (hacc : acc < 2 ^ shift) :
    acc ||| (m <<< shift) = acc + m * 2 ^ shift := by
  rw [Nat.shiftLeft_eq, Nat.or_comm, mul_comm m,
    ← Nat.mul_add_lt_is_or hacc m, Nat.add_comm]

theorem encVarintGo_dec (fuel : Nat) : ∀ (n : Nat), n ≤ fuel →
    ∀ (acc shift : Nat), acc < 2 ^ shift → ∀ (rest : List Nat),
    readVarint (encVarintGo fuel n ++ rest) acc shift =
      .ok (acc + n * 2 ^ shift, rest) := by
  induction fuel with
  | zero =>
      intro n hn acc shift hacc rest
      have hn0 : n = 0 := by omega
      subst hn0
      simp [encVarintGo, readVarint]
  | succ f ih =>
      intro n hn acc shift hacc rest
      by_cases hlt : n < 128
      · have e1 : n &&& 127 = n := by
          have h7 := Nat.and_pow_two_sub_one_eq_mod n 7
          norm_num at h7
          omega
        have e2 : n &&& 128 = 0 := by
          have h7 : n.testBit 7 = false := by
            simp only [Nat.testBit_to_div_mod, decide_eq_false_iff_not]
            omega
          have ha := Nat.and_two_pow n 7
          rw [h7] at ha
          norm_num at ha
          omega
        simp only [encVarintGo, if_pos hlt, List.cons_append, List.nil_append,
          readVarint, e1, e2]
        rw [or_shift_add acc n shift hacc]
        simp
      · have hb : (n % 128 + 128) &&& 127 = n % 128 := by
          have h7 := Nat.and_pow_two_sub_one_eq_mod (n % 128 + 128) 7
          norm_num at h7
          omega
        have hb2 : ¬((n % 128 + 128) &&& 128 = 0) := by
          have h7 : (n % 128 + 128).testBit 7 = true := by
            simp only [Nat.testBit_to_div_mod, decide_eq_true_eq]
            omega
          have ha := Nat.and_two_pow (n % 128 + 128) 7
          rw [h7] at ha
          norm_num at ha
          omega
        have hmod : n % 128 < 128 := Nat.mod_lt _ (by norm_num)
        have hinv : acc + n % 128 * 2 ^ shift < 2 ^ (shift + 7) :=
          calc acc + n % 128 * 2 ^ shift
              < 2 ^ shift + n % 128 * 2 ^ shift := by omega
            _ = (n % 128 + 1) * 2 ^ shift := by ring
            _ ≤ 128 * 2 ^ shift := Nat.mul_le_mul_right _ (by omega)
            _ = 2 ^ (shift + 7) := by rw [pow_add]; ring
        have hrec : n / 128 ≤ f := by omega
        simp only [encVarintGo, if_neg hlt, List.cons_append, readVarint, hb,
          if_neg hb2]
        rw [or_shift_add acc (n % 128) shift hacc]
        rw [ih (n / 128) hrec _ (shift + 7) hinv rest]
        congr 2
        rw [pow_add]
        conv_rhs => rw [← Nat.mod_add_div n 128]
        ring

theorem readVarint_enc (n : Nat) (rest : List Nat) :
    readVarint (encVarint n ++ rest) 0 0 = .ok (n, rest) := by
  have h := encVarintGo_dec n n le_rfl 0 0 (by norm_num) rest
  simpa [encVarint] using h

theorem read_string_runs (s : List Nat) : read_string.runs (encStr s) s := by
  intro rest
  show read_string ((encVarint s.length ++ s) ++ rest) = _
  rw [List.append_assoc]
  simp only [read_string, readVarint_enc]
  cases s with
  | nil => simp
  | cons a t =>
      rw [if_neg (by simp)]
      rw [List.take_left, List.drop_left]

theorem readN_runs {α : Type} {reader : P α} {enc : α → List Nat}
    (l : List α) (h : ∀ x ∈ l, reader.runs (enc x) x) :
    (readN reader l.length).runs ((l.map enc).flatten) l := by
  induction l with
  | nil => exact fun _ => rfl
  | cons x xs ih =>
      have hx := h x (List.mem_cons_self x xs)
      have hxs := ih (fun y hy => h y (List.mem_cons_of_mem _ hy))
      refine P.runs_cast
        (?_ : (readN reader (x :: xs).length).runs
          (enc x ++ (xs.map enc).flatten) (x :: xs)) (by simp)
      exact P.runs_bind hx (P.runs_bind_pure (fun ys => x :: ys) hxs)

theorem readCounted_runs {α : Type} {reader : P α} {enc : α → List Nat}
    (l : List α) (hlen : cntOk l) (h : ∀ x ∈ l, reader.runs (enc x) x) :
    (readCounted reader).runs (encCounted enc l) l := by
  have hint : int32Ok (l.length : Int) :=
    ⟨le_trans (by norm_num) (Int.natCast_nonneg _), by exact_mod_cast hlen⟩
  have h1 := read_int_runs (l.length : Int) hint
  have h2 : (readN reader ((l.length : Int)).toNat).runs
      ((l.map enc).flatten) l := by
    rw [Int.toNat_natCast]
    exact readN_runs l h
  exact P.runs_bind h1 h2

theorem P.runs_pure (a : α) : (Pure.pure a : P α).runs [] a := fun _ => rfl

theorem int32Ok_len {α : Type} (l : List α) (h : cntOk l) :
    int32Ok (l.length : Int) :=
  ⟨le_trans (by norm_num) (Int.natCast_nonneg _), by exact_mod_cast h⟩

theorem readN_cast_runs {α : Type} {reader : P α} {enc : α → List Nat}
    (l : List α) (h : ∀ x ∈ l, reader.runs (enc x) x) :
    (readN reader ((l.length : Int)).toNat).runs ((l.map enc).flatten) l := by
  rw [Int.toNat_natCast]
  exact readN_runs l h

theorem encPair_flatten_length (l : List (Int × Int)) :
    ((l.map encPair).flatten).length = 8 * l.length := by
  induction l with
  | nil => simp
  | cons q r ih =>
      simp only [List.map_cons, List.flatten_cons, List.length_append, ih,
        encPair, encInt32, List.length_append, List.length_cons,
        List.length_nil, List.length_cons]
      omega

theorem decodePairs_enc (l : List (Int × Int)) (h : ∀ q ∈ l, pairOk q) :
    decodePairs ((l.map encPair).flatten) = l := by
  induction l with
  | nil => rfl
  | cons q r ih =>
      obtain ⟨a, b⟩ := q
      obtain ⟨ha, hb⟩ := h (a, b) (List.mem_cons_self _ _)
      have ihr := ih (fun y hy => h y (List.mem_cons_of_mem _ hy))
      simp only [List.map_cons, List.flatten_cons, encPair, encInt32,
        List.append_assoc, List.cons_append, List.nil_append, decodePairs]
      rw [toSigned32_enc a ha, toSigned32_enc b hb]
      simpa using ihr

theorem read_instructions_runs (l : List (Int × Int))
    (h : ∀ q ∈ l, pairOk q) :
    (read_instructions (l.length : Int)).runs ((l.map encPair).flatten) l := by
  intro rest
  have hlen : ((l.map encPair).flatten).length = 8 * l.length :=
    encPair_flatten_length l
  show read_instructions _ ((l.map encPair).flatten ++ rest) = _
  unfold read_instructions
  rw [if_neg (by omega : ¬((l.length : Int) < 0)), Int.toNat_natCast]
  have hge : ¬(((l.map encPair).flatten ++ rest).length < 8 * l.length) := by
    rw [List.length_append, hlen]
    omega
  rw [if_neg hge, List.take_left' hlen, List.drop_left' hlen,
    decodePairs_enc l h]

theorem readEh_runs (e : EhRec) (h : ehOk e) : readEh.runs (encEh e) e := by
  intro rest
  obtain ⟨f1, f2, f3, f4, f5, f6⟩ := e
  obtain ⟨h1, h2, h3, h4, h5, h6⟩ := h
  show readEh (encEh ⟨f1, f2, f3, f4, f5, f6⟩ ++ rest) = _
  simp only [encEh, encInt32, List.cons_append, List.nil_append,
    List.append_assoc, readEh, ts32]
  rw [toSigned32_enc f1 h1, toSigned32_enc f2 h2, toSigned32_enc f3 h3,
    toSigned32_enc f4 h4, toSigned32_enc f5 h5, toSigned32_enc f6 h6]

theorem readStaticField_runs (q : Int × Int) (h : pairOk q) :
    readStaticField.runs (encPair q) q := by
  intro rest
  obtain ⟨a, b⟩ := q
  obtain ⟨ha, hb⟩ := h
  show readStaticField (encPair (a, b) ++ rest) = _
  simp only [encPair, encInt32, List.cons_append, List.nil_append,
    List.append_assoc, readStaticField, ts32]
  rw [toSigned32_enc a ha, toSigned32_enc b hb]

theorem skip8_runs : skip8.runs (List.replicate 8 0) () := by
  intro rest
  show skip8 (List.replicate 8 0 ++ rest) = _
  unfold skip8
  rw [List.drop_left' (by simp)]

theorem readMethod_runs (m : MethodRec) (h : methodOk m) :
    readMethod.runs (encMethod m) m := by
  obtain ⟨insts, ehs⟩ := m
  obtain ⟨hci, hqi, hce, hee⟩ := h
  refine P.runs_cast
    (?_ : readMethod.runs
      (encInt32 (insts.length : Int) ++ ((insts.map encPair).flatten ++
        (encInt32 (ehs.length : Int) ++ (ehs.map encEh).flatten)))
      ⟨insts, ehs⟩)
    (by simp [encMethod, encCounted])
  exact P.runs_bind (read_int_runs _ (int32Ok_len insts hci))
    (P.runs_bind (read_instructions_runs insts hqi)
      (P.runs_bind (read_int_runs _ (int32Ok_len ehs hce))
        (P.runs_bind_pure (fun e => (⟨insts, e⟩ : MethodRec))
          (readN_cast_runs ehs (fun e he => readEh_runs e (hee e he))))))

theorem readParamsGen_runs (l : List Int) (h : ∀ v ∈ l, int32Ok v) :
    (readParamsGen l.length).runs ((l.map encParamId).flatten) l := by
  induction l with
  | nil => exact fun _ => rfl
  | cons v vs ih =>
      have hv := h v (List.mem_cons_self _ _)
      have hvs := ih (fun y hy => h y (List.mem_cons_of_mem _ hy))
      refine P.runs_cast
        (?_ : (readParamsGen (v :: vs).length).runs
          (encBool false ++ (encInt32 v ++ (vs.map encParamId).flatten))
          (v :: vs))
        (by simp [encParamId])
      exact P.runs_bind (read_bool_runs false)
        (P.runs_bind (read_int_runs v hv)
          (P.runs_bind_pure (fun ys => v :: ys) hvs))

theorem readExtMethod_runs (m : ExtMethodRec) (h : extMethodOk m) :
    readExtMethod.runs (encExtMethod m) m := by
  obtain ⟨name, tid, params, gen_args, isg⟩ := m
  obtain ⟨h1, h2, h3, h4, h5, h6⟩ := h
  cases isg with
  | false =>
      have hga : gen_args = [] := h6 rfl
      subst hga
      refine P.runs_cast
        (?_ : readExtMethod.runs
          (encBool false ++ (encInt32 tid ++ (encStr name ++
            (encInt32 (params.length : Int) ++
              (params.map encInt32).flatten))))
          ⟨name, tid, params, [], false⟩)
        (by simp [encExtMethod, encCounted])
      exact P.runs_bind (read_bool_runs false)
        (P.runs_bind (read_int_runs tid h1)
          (P.runs_bind (read_string_runs name)
            (P.runs_bind (read_int_runs _ (int32Ok_len params h2))
              (P.runs_bind_pure
                (fun ps => (⟨name, tid, ps, [], false⟩ : ExtMethodRec))
                (readN_cast_runs params
                  (fun v hv => read_int_runs v (h3 v hv)))))))
  | true =>
      refine P.runs_cast
        (?_ : readExtMethod.runs
          (encBool true ++ (encInt32 tid ++ (encStr name ++
            (encInt32 (gen_args.length : Int) ++
              ((gen_args.map encInt32).flatten ++
                (encInt32 (params.length : Int) ++
                  (params.map encParamId).flatten))))))
          ⟨name, tid, params, gen_args, true⟩)
        (by simp [encExtMethod, encCounted])
      exact P.runs_bind (read_bool_runs true)
        (P.runs_bind (read_int_runs tid h1)
          (P.runs_bind (read_string_runs name)
            (P.runs_bind (read_int_runs _ (int32Ok_len gen_args h4))
              (P.runs_bind (readN_cast_runs gen_args
                  (fun v hv => read_int_runs v (h5 v hv)))
                (P.runs_bind (read_int_runs _ (int32Ok_len params h2))
                  (P.runs_bind_pure
                    (fun ps => (⟨name, tid, ps, gen_args, true⟩ : ExtMethodRec))
                    (P.runs_cast (readParamsGen_runs params h3)
                      (by rfl))))))))

theorem readField_runs (f : FieldRec) (h : fieldOk f) :
    readField.runs (encField f) f := by
  obtain ⟨name, tid, isNew⟩ := f
  cases isNew with
  | false =>
      refine P.runs_cast
        (?_ : readField.runs
          (encBool false ++ (encInt32 tid ++ encStr name))
          ⟨name, tid, false⟩)
        (by simp [encField])
      exact P.runs_bind (read_bool_runs false)
        (P.runs_bind (read_int_runs tid h)
          (P.runs_bind_pure (fun nm => (⟨nm, tid, false⟩ : FieldRec))
            (read_string_runs name)))
  | true =>
      refine P.runs_cast
        (?_ : readField.runs
          (encBool true ++ (encInt32 tid ++ (encStr name ++
            List.replicate 8 0)))
          ⟨name, tid, true⟩)
        (by simp [encField])
      exact P.runs_bind (read_bool_runs true)
        (P.runs_bind (read_int_runs tid h)
          (P.runs_bind (read_string_runs name)
            (P.runs_bind_pure (fun _ => (⟨name, tid, true⟩ : FieldRec))
              skip8_runs)))

theorem readAnonStorey_runs (a : AnonStoreyRec) (h : anonOk a) :
    readAnonStorey.runs (encAnonStorey a) a := by
  obtain ⟨fts, ctor, vt⟩ := a
  obtain ⟨h1, h2, h3, h4, h5⟩ := h
  exact P.runs_cast
    (P.runs_bind (read_int_runs _ (int32Ok_len fts h1))
      (P.runs_bind (readN_cast_runs fts (fun v hv => read_int_runs v (h2 v hv)))
        (P.runs_bind (read_int_runs ctor h3)
          (P.runs_bind (read_int_runs 0 ⟨by norm_num, by norm_num⟩)
            (P.runs_bind (read_int_runs 0 ⟨by norm_num, by norm_num⟩)
              (P.runs_bind (@readN_cast_runs Int read_int encInt32 [] (by simp))
                (P.runs_bind (read_int_runs _ (int32Ok_len vt h4))
                  (P.runs_bind_pure
                    (fun v => (⟨fts, ctor, v⟩ : AnonStoreyRec))
                    (readN_cast_runs vt
                      (fun v hv => read_int_runs v (h5 v hv)))))))))))
    (by simp [encAnonStorey, encCounted])

theorem readFixInfo_runs (f : FixInfoRec) (h : fixInfoOk f) :
    readFixInfo.runs (encFixInfo f) f := by
  obtain ⟨name, tid, params, gen_args, pid, isg⟩ := f
  obtain ⟨h1, h2, h3, h4, h5, h6, h7⟩ := h
  cases isg with
  | false =>
      have hga : gen_args = [] := h6 rfl
      subst hga
      exact P.runs_cast
        (P.runs_bind (read_bool_runs false)
          (P.runs_bind (read_int_runs tid h1)
            (P.runs_bind (read_string_runs name)
              (P.runs_bind
                (P.runs_bind (read_int_runs _ (int32Ok_len params h2))
                  (P.runs_bind_pure (fun ps => (([] : List Int), ps))
                    (readN_cast_runs params
                      (fun v hv => read_int_runs v (h3 v hv)))))
                (P.runs_bind (read_int_runs pid h7) (P.runs_pure _))))))
        (by simp [encFixInfo, encCounted])
  | true =>
      exact P.runs_cast
        (P.runs_bind (read_bool_runs true)
          (P.runs_bind (read_int_runs tid h1)
            (P.runs_bind (read_string_runs name)
              (P.runs_bind
                (P.runs_bind (read_int_runs _ (int32Ok_len gen_args h4))
                  (P.runs_bind (readN_cast_runs gen_args
                      (fun v hv => read_int_runs v (h5 v hv)))
                    (P.runs_bind (read_int_runs _ (int32Ok_len params h2))
                      (P.runs_bind_pure (fun ps => (gen_args, ps))
                        (readParamsGen_runs params h3)))))
                (P.runs_bind (read_int_runs pid h7) (P.runs_pure _))))))
        (by simp [encFixInfo, encCounted])

/-- The full single-pass round trip: parsing the canonical encoding of a
well-formed container reproduces the container and consumes exactly the
encoding, leaving any following bytes untouched. -/
theorem parse_encode_runs (p : PatchFile) (h : WF p) :
    parse.runs (encodePatch p) p := by
  obtain ⟨mg, bn, wn, asm, et, em, ist, fl, sf, an, fi, nc, ms⟩ := p
  obtain ⟨h1, h2, h3, h4, h5, h6, h7, h8, h9, h10, h11, h12, h13, h14, h15,
    h16⟩ := h
  exact P.runs_cast
    (P.runs_bind (read_ulong_runs mg h1) (P.runs_bind (read_string_runs bn) (P.runs_bind (readCounted_runs et h2 (fun s _ => read_string_runs s)) (P.runs_bind (readCounted_runs ms h3 (fun x hx => readMethod_runs x (h4 x hx))) (P.runs_bind (readCounted_runs em h5 (fun x hx => readExtMethod_runs x (h6 x hx))) (P.runs_bind (readCounted_runs ist h7 (fun s _ => read_string_runs s)) (P.runs_bind (readCounted_runs fl h8 (fun x hx => readField_runs x (h9 x hx))) (P.runs_bind (readCounted_runs sf h10 (fun q hq => readStaticField_runs q (h11 q hq))) (P.runs_bind (readCounted_runs an h12 (fun a ha => readAnonStorey_runs a (h13 a ha))) (P.runs_bind (read_string_runs wn) (P.runs_bind (read_string_runs asm) (P.runs_bind (readCounted_runs fi h14 (fun f hf => readFixInfo_runs f (h15 f hf))) (P.runs_bind_pure (fun ncs => (⟨mg, bn, wn, asm, et, em, ist, fl, sf, an, fi, ncs, ms⟩ : PatchFile)) (readCounted_runs nc h16 (fun s _ => read_string_runs s)))))))))))))))
    (by simp [encodePatch])

/-- One step of the reader pipeline, as an equation (definitional). -/
theorem P.bind_eval (m : P α) (f : α → P β) (s : List Nat) :
    (m >>= f) s =
      match m s with
      | .error e => .error e
      | .ok (a, s') => f a s' := rfl

theorem P.runs_apply {m : P α} {f : α → P β} {pre a} (hm : m.runs pre a)
    {input : List Nat} {r : Except PyErr (β × List Nat)}
    (hf : f a input = r) : (m >>= f) (pre ++ input) = r := by
  show P.bind m f (pre ++ input) = r
  unfold P.bind
  rw [hm]
  exact hf

theorem and127_of_lt {n : Nat} (h : n < 128) : n &&& 127 = n := by
  have h7 := Nat.and_pow_two_sub_one_eq_mod n 7
  norm_num at h7
  omega

theorem and128_of_lt {n : Nat} (h : n < 128) : n &&& 128 = 0 := by
  have h7 : n.testBit 7 = false := by
    simp only [Nat.testBit_to_div_mod, decide_eq_false_iff_not]
    omega
  have ha := Nat.and_two_pow n 7
  rw [h7] at ha
  norm_num at ha
  omega

/-- A container that is empty except for a new-class-name array of declared
count 1: magic, empty bridge name, seven empty counted sections, two empty
strings, an empty fix-info array, then the count 1. -/
def c1Pref : List Nat :=
  [0, 0, 0, 0, 0, 0, 0, 0] ++ [0] ++ [0, 0, 0, 0] ++ [0, 0, 0, 0] ++
  [0, 0, 0, 0] ++ [0, 0, 0, 0] ++ [0, 0, 0, 0] ++ [0, 0, 0, 0] ++
  [0, 0, 0, 0] ++ [0] ++ [0] ++ [0, 0, 0, 0] ++ [1, 0, 0, 0]

/-- `c1Pref` followed by a string record declaring 5 bytes but truncated
after 2: the input ends mid-way through the new-class-name array. -/
def c1Input : List Nat := c1Pref ++ 5 :: [97, 98]

/-- The container `parse` silently builds from such a truncated input. -/
def c1Result (data : List Nat) : PatchFile :=
  ⟨0, [], [], [], [], [], [], [], [], [], [], [data], []⟩

/-- Truncated string bodies parse silently: with the count-prefixed arrays
before the final one empty, a last string declaring `L` bytes but followed by
fewer is decoded from what remains and `parse` returns a full container. -/
theorem parse_c1_family (L : Nat) (data : List Nat) (hL : L < 128)
    (hlen : data.length < L) :
    parse (c1Pref ++ L :: data) = .ok (c1Result data, []) := by
  have hv : readVarint (L :: data) 0 0 = .ok (L, data) := by
    simp [readVarint, and128_of_lt hL, and127_of_lt hL]
  have hs : read_string (L :: data) = .ok (data, []) := by
    simp only [read_string, hv]
    rw [if_neg (by omega : ¬L = 0)]
    rw [List.take_of_length_le (by omega), List.drop_eq_nil_iff.mpr (by omega)]
  have hn : readN read_string 1 (L :: data) = .ok ([data], []) := by
    show (read_string >>= fun x =>
      readN read_string 0 >>= fun xs => Pure.pure (x :: xs)) (L :: data) = _
    rw [P.bind_eval, hs]
    rfl
  have hc : readCounted read_string ([1, 0, 0, 0] ++ (L :: data)) =
      .ok ([data], []) :=
    P.runs_apply (read_int_runs 1 ⟨by norm_num, by norm_num⟩) hn
  show parse (c1Pref ++ L :: data) = _
  refine P.runs_apply (read_ulong_runs 0 (by norm_num)) ?_
  refine P.runs_apply (read_string_runs []) ?_
  refine P.runs_apply
    (@readCounted_runs (List Nat) read_string encStr [] (by decide)
      (by simp)) ?_
  refine P.runs_apply
    (@readCounted_runs MethodRec readMethod encMethod [] (by decide)
      (by simp)) ?_
  refine P.runs_apply
    (@readCounted_runs ExtMethodRec readExtMethod encExtMethod [] (by decide)
      (by simp)) ?_
  refine P.runs_apply
    (@readCounted_runs (List Nat) read_string encStr [] (by decide)
      (by simp)) ?_
  refine P.runs_apply
    (@readCounted_runs FieldRec readField encField [] (by decide)
      (by simp)) ?_
  refine P.runs_apply
    (@readCounted_runs (Int × Int) readStaticField encPair [] (by decide)
      (by simp)) ?_
  refine P.runs_apply
    (@readCounted_runs AnonStoreyRec readAnonStorey encAnonStorey []
      (by decide) (by simp)) ?_
  refine P.runs_apply (read_string_runs []) ?_
  refine P.runs_apply (read_string_runs []) ?_
  refine P.runs_apply
    (@readCounted_runs FixInfoRec readFixInfo encFixInfo [] (by decide)
      (by simp)) ?_
  show (readCounted read_string >>= fun ncs => Pure.pure
      ((⟨0, [], [], [], [], [], [], [], [], [], [], ncs, []⟩ : PatchFile)))
    ([1, 0, 0, 0] ++ (L :: data)) = Except.ok (c1Result data, [])
  rw [P.bind_eval, hc]
  rfl

/-- C1 counterexample: `c1Input` is truncated mid-way through the
count-prefixed new-class-name array (its single string record declares 5
bytes but only 2 follow), yet `parse` raises nothing and returns a full
container holding the silently shortened string — the claimed abort does not
happen. -/
theorem c1_counterexample : parse c1Input = .ok (c1Result [97, 98], []) := by
  exact parse_c1_family 5 [97, 98] (by norm_num) (by norm_num)

/-- C1 (amended): truncation inside any fixed-width read (int32, uint64, an
instruction-slot block) aborts the parse, but a length-prefixed string body
is read leniently — `stream.read(length)` silently returns fewer bytes at the
end of the buffer — so an input truncated inside the bytes of a final string
record parses successfully into a container with a shortened string. -/
theorem c1_truncation_fixed_width_aborts_strings_lenient :
    (∀ s : List Nat, s.length < 4 → read_int s = .error .structErr) ∧
    (∀ s : List Nat, s.length < 8 → read_ulong s = .error .structErr) ∧
    (∀ (count : Int) (s : List Nat), 0 ≤ count → s.length < 8 * count.toNat →
      read_instructions count s = .error .eofErr) ∧
    (∀ (L : Nat) (data : List Nat), L < 128 → data.length < L →
      parse (c1Pref ++ L :: data) = .ok (c1Result data, [])) := by
  refine ⟨?_, ?_, ?_, parse_c1_family⟩
  · intro s hs
    cases s with
    | nil => rfl
    | cons a s =>
        cases s with
        | nil => rfl
        | cons b s =>
            cases s with
            | nil => rfl
            | cons c s =>
                cases s with
                | nil => rfl
                | cons d s => simp at hs; omega
  · intro s hs
    cases s with
    | nil => rfl
    | cons b1 s =>
        cases s with
        | nil => rfl
        | cons b2 s =>
            cases s with
            | nil => rfl
            | cons b3 s =>
                cases s with
                | nil => rfl
                | cons b4 s =>
                    cases s with
                    | nil => rfl
                    | cons b5 s =>
                        cases s with
                        | nil => rfl
                        | cons b6 s =>
                            cases s with
                            | nil => rfl
                            | cons b7 s =>
                                cases s with
                                | nil => rfl
                                | cons b8 s => simp at hs; omega
  · intro count s h0 hlen
    unfold read_instructions
    rw [if_neg (by omega : ¬count < 0), if_pos hlen]

/-- C1 witness: the amended theorem at the concrete truncated input. -/
theorem c1_witness : parse (c1Pref ++ 5 :: [97, 98]) =
    .ok (c1Result [97, 98], []) :=
  c1_truncation_fixed_width_aborts_strings_lenient.2.2.2 5 [97, 98]
    (by norm_num) (by norm_num)

/-- A sample well-formed container exercising every table. -/
def sampleP : PatchFile :=
  ⟨81985529216486895,
   [72, 105],
   [87],
   [],
   [[65], []],
   [⟨[77], 0, [1, 2], [], false⟩, ⟨[71], 1, [3], [0], true⟩],
   [[115]],
   [⟨[102], 0, false⟩, ⟨[103], 1, true⟩],
   [(0, 1)],
   [⟨[0], 5, [2]⟩],
   [⟨[70], 0, [], [], 0, false⟩],
   [[78]],
   [⟨[(93, 1), (103, 0)], [⟨0, 1, 0, 1, 1, 1⟩]⟩]⟩

/-- C2: `parse` reads the sections of the container in exactly the fixed
order — magic, bridge name, extern-types, methods, extern-methods,
intern-strings, fields, static-field bindings, anonymous storeys,
wrappers-manager name, assembly-qualifier string, fix-infos, new-class
names — and every count-prefixed array is read with exactly its declared
int32 number of records: parsing the canonical encoding of any well-formed
container reproduces that container, consuming the encoding exactly and
leaving any extra bytes unread. -/
theorem c2_section_order_and_exact_counts (p : PatchFile) (h : WF p)
    (extra : List Nat) :
    parse (encodePatch p ++ extra) = .ok (p, extra) :=
  parse_encode_runs p h extra

/-- C2 witness: the round trip at a concrete container with trailing
bytes. -/
theorem c2_witness :
    WF sampleP ∧ parse (encodePatch sampleP ++ [255]) = .ok (sampleP, [255]) := by
  have hwf : WF sampleP := by
    refine ⟨?_, ?_, ?_, ?_, ?_, ?_, ?_, ?_, ?_, ?_, ?_, ?_, ?_, ?_, ?_, ?_⟩ <;>
      decide
  exact ⟨hwf, c2_section_order_and_exact_counts sampleP hwf [255]⟩

/-- A 20-byte storey stream: field count 0, ctor 7, the extra int32 9, then
two zero counts.  The code's reader consumes all 20 bytes; a four-component
reader would take the 9 for the interface count and run off the stream. -/
def c3Input : List Nat :=
  [0, 0, 0, 0, 7, 0, 0, 0, 9, 0, 0, 0, 0, 0, 0, 0, 0, 0, 0, 0]

/-- C3 counterexample: on `c3Input`, the code's storey reader succeeds (and
its record has no interface component at all), while the four-component
reader of the claim fails — so the record is *not* deserialized by reading
exactly those four components, and the interface list is not retained. -/
theorem c3_counterexample :
    readAnonStorey c3Input = .ok (⟨[], 7, []⟩, []) ∧
    readAnonStoreyFour c3Input = .error .structErr := by
  constructor <;> rfl

/-- The storey record's five stream components as the code reads them. -/
def encStoreyStream (fts : List Int) (ctor ctorP : Int)
    (itfs vt : List Int) : List Nat :=
  encCounted encInt32 fts ++ encInt32 ctor ++ encInt32 ctorP ++
  encCounted encInt32 itfs ++ encCounted encInt32 vt

/-- C3 (amended): each anonymous-storey record is deserialized by reading
five components in order — a count-prefixed field-type-id list, the int32
constructor id, one further int32 that is read and discarded, a
count-prefixed interface-id list, and a count-prefixed vtable-id list — and
the resulting record retains only the field list, the constructor id and the
vtable list (the interface list is dropped). -/
theorem c3_five_components_interfaces_dropped
    (fts : List Int) (ctor ctorP : Int) (itfs vt : List Int)
    (h1 : cntOk fts) (h2 : ∀ v ∈ fts, int32Ok v) (h3 : int32Ok ctor)
    (h4 : int32Ok ctorP) (h5 : cntOk itfs) (h6 : ∀ v ∈ itfs, int32Ok v)
    (h7 : cntOk vt) (h8 : ∀ v ∈ vt, int32Ok v) :
    readAnonStorey.runs (encStoreyStream fts ctor ctorP itfs vt)
      ⟨fts, ctor, vt⟩ := by
  exact P.runs_cast
    (P.runs_bind (read_int_runs _ (int32Ok_len fts h1))
      (P.runs_bind (readN_cast_runs fts (fun v hv => read_int_runs v (h2 v hv)))
        (P.runs_bind (read_int_runs ctor h3)
          (P.runs_bind (read_int_runs ctorP h4)
            (P.runs_bind (read_int_runs _ (int32Ok_len itfs h5))
              (P.runs_bind (readN_cast_runs itfs
                  (fun v hv => read_int_runs v (h6 v hv)))
                (P.runs_bind (read_int_runs _ (int32Ok_len vt h7))
                  (P.runs_bind_pure
                    (fun v => (⟨fts, ctor, v⟩ : AnonStoreyRec))
                    (readN_cast_runs vt
                      (fun v hv => read_int_runs v (h8 v hv)))))))))))
    (by simp [encStoreyStream, encCounted])

/-- C3 witness: the amended reading at a concrete record with a non-empty
interface list, which is consumed but absent from the result. -/
theorem c3_witness :
    readAnonStorey (encStoreyStream [2] 7 9 [4, 5] [6] ++ [1]) =
      .ok (⟨[2], 7, [6]⟩, [1]) :=
  c3_five_components_interfaces_dropped [2] 7 9 [4, 5] [6] (by decide)
    (by decide) (by decide) (by decide) (by decide) (by decide) (by decide)
    (by decide) [1]

/-- Operand classification of an opcode (`class OperandType`). -/
inductive OperandType where
  | InlineNone
  | InlineInt
  | InlineString
  | InlineType
  | InlineField
  | InlineMethod
  | InlineBrTarget
  | InlineTok
  | InlineVar
  | InlineStackSpace
  | InlineSwitch
  | Inline8Byte
deriving DecidableEq

/-- Control-flow classification of an opcode (`class FlowControl`). -/
inductive FlowControl where
  | Next
  | Branch
  | CondBranch
  | Return
  | Call
  | Throw
  | Meta
deriving DecidableEq

/-- One entry of the opcode registry (`class OpCode`). -/
structure OpCode where
  code : Int
  name : String
  operand_type : OperandType
  flow : FlowControl
deriving DecidableEq

/-- `OpCode.mnemonic`: `name.lower().replace('_', '.')`. -/
def OpCode.mnemonic (o : OpCode) : String := o.name.toLower.replace "_" "."

/-- The `OPCODE_MAP_UNITY` dictionary (numeric opcode, symbolic name). -/
def opcodeNames : List (Int × String) :=
  [(0, "Conv_I1"), (1, "Ldelem_I"), (2, "Cgt"), (3, "Mul"),
   (5, "Stobj"), (6, "Ldftn"), (7, "Conv_I8"), (8, "Ldloca"),
   (9, "Shr"), (11, "Bgt"), (12, "Callvirtvirt"), (13, "Ldarga"),
   (15, "Ldobj"), (16, "Ldobj"), (17, "Bgt_Un"), (19, "Conv_Ovf_I4"),
   (20, "Shl"), (21, "Neg"), (22, "Box"), (23, "Stelem_Ref"),
   (24, "Isinst"), (25, "Newarr_Prim"), (27, "Ldelem_I1"), (28, "Ldc_I8"),
   (29, "Conv_U4"), (30, "Bge_Un"), (33, "Ble_Un"), (34, "Ldflda"),
   (35, "Conv_U2"), (36, "Stloc"), (37, "Conv_I8"), (39, "Ldstr"),
   (40, "Cgt_Un"), (41, "Stind_I4"), (42, "Conv_I2"), (43, "Beq"),
   (44, "Stind_R8"), (45, "Call"), (46, "Conv_I1"), (47, "Blt_Un"),
   (48, "Stelem_I8"), (49, "Conv_Ovf_I4_Un"), (51, "Stind_I1"), (52, "Ldelem_R4"),
   (53, "Unbox"), (55, "Conv_Ovf_U8"), (56, "Ldobj"), (57, "Conv_R4"),
   (58, "Conv_R4"), (59, "Conv_Ovf_U2"), (60, "Ldsfld"), (61, "Conv_U1"),
   (62, "Starg"), (63, "Conv_I2"), (64, "Conv_Ovf_I4"), (65, "Rethrow"),
   (66, "Stelem_I4"), (67, "Newanon"), (68, "Conv_R8"), (69, "Conv_Ovf_I1"),
   (71, "Add_Ovf_Un"), (72, "Ldloc"), (73, "Calli"), (74, "Ldelem_I2"),
   (75, "Stfld"), (76, "Not"), (77, "Ldobj"), (78, "Conv_U1"),
   (79, "Or"), (80, "Add"), (81, "Ldobj"), (82, "Ldelem_Ref"),
   (83, "Ldobj"), (84, "Div"), (85, "Stsfld"), (86, "Ldobj"),
   (87, "Throw"), (88, "Castclass"), (89, "Newarr"), (90, "Xor"),
   (91, "Mul_Ovf_Un"), (93, "Br"), (94, "Ldtoken"), (95, "Ldtype"),
   (96, "Stobj"), (97, "Call"), (98, "Ldelem_U2"), (99, "Stind_Ref"),
   (100, "Ldc_R8"), (101, "Conv_Ovf_I2"), (103, "Ret"), (105, "Ret"),
   (108, "Conv_Ovf_U2"), (109, "Blt"), (110, "Bne_Un"), (111, "Blt_Un"),
   (112, "Conv_U4"), (113, "Stelem_I1"), (115, "Stind_I2"), (116, "Blt"),
   (117, "Initobj"), (119, "Stind_R4"), (120, "Conv_U8"), (121, "Stelem_R8"),
   (122, "Callvirt"), (123, "Ldelem_I1"), (124, "Stelem_R4"), (125, "Bge"),
   (126, "Sub"), (127, "Brtrue"), (128, "Pop"), (129, "Stelem_Ref"),
   (130, "Div_Un"), (131, "Conv_U1"), (132, "Stelem_I8"), (133, "Unbox_Any"),
   (134, "Brfalse"), (135, "Unbox_Any"), (136, "Add_Ovf"), (137, "Ldobj"),
   (138, "Calli"), (139, "Ldlen"), (140, "Conv_U4"), (141, "Ldc_I4"),
   (143, "Ldc_I4"), (144, "Dup"), (145, "Conv_Ovf_U8"), (147, "Stelem_I"),
   (148, "And"), (149, "Switch"), (150, "Conv_U4"), (151, "Newobj"),
   (153, "Leave"), (155, "Ldobj"), (156, "Ldelem_U4"), (158, "Stind_Ref"),
   (159, "Ldelem_R8"), (160, "Rem"), (161, "Box"), (162, "Ldvirtftn"),
   (163, "Conv_Ovf_I1"), (164, "Ldarg"), (165, "Stind"), (166, "Ceq"),
   (167, "Ldfld"), (168, "Ldobj"), (169, "Shr_Un"), (170, "Ldelem_I4"),
   (171, "Rem_Un"), (172, "Ldobj"), (173, "Ret"), (174, "Conv_R8"),
   (175, "Stelem_Ref"), (176, "Ble"), (177, "Rethrow"), (178, "Conv_U8"),
   (179, "Mul")]

/-- The derivation loop at lines 227-266: operand kind and control-flow kind
from the symbolic name. -/
def classify (n : String) : OperandType × FlowControl :=
  if n ∈ ["Ldc_I4", "Ldc_R4", "Ldc_I4_S"] then (.InlineInt, .Next)
  else if n = "Ldstr" then (.InlineString, .Next)
  else if n ∈ ["Ldc_I8", "Ldc_R8"] then (.Inline8Byte, .Next)
  else if n ∈ ["Ldarg", "Ldarga", "Ldloc", "Ldloca", "Stloc", "Starg"] then
    (.InlineVar, .Next)
  else if n ∈ ["Br", "Brtrue", "Brfalse", "Beq", "Bne_Un", "Bge", "Bgt",
      "Ble", "Blt", "Bge_Un", "Bgt_Un", "Ble_Un", "Blt_Un", "Leave"] then
    (.InlineBrTarget, if n ∈ ["Br", "Leave"] then .Branch else .CondBranch)
  else if n = "Switch" then (.InlineSwitch, .CondBranch)
  else if n ∈ ["Call", "Callvirt", "Newobj", "Ldftn", "Ldvirtftn",
      "Callvirtvirt", "Calli"] then
    ((if n = "Newobj" then .InlineType else .InlineMethod), .Call)
  else if n ∈ ["Ldfld", "Ldflda", "Stfld", "Ldsfld", "Stsfld"] then
    (.InlineField, .Next)
  else if n ∈ ["Box", "Unbox", "Isinst", "Castclass", "Newarr", "Ldobj",
      "Stobj", "Initobj", "Newanon", "Ldtype", "Unbox_Any"] then
    (.InlineType, .Next)
  else if n = "Ldtoken" then (.InlineTok, .Next)
  else if n ∈ ["Ret", "Throw", "Rethrow"] then
    (.InlineNone, if n = "Ret" then .Return else .Throw)
  else (.InlineNone, .Next)

/-- `OPCODES.get(code)`: the registry from the derivation loop plus the
separately registered `StackSpace` marker (code 146, which is not a key of
the dictionary). -/
def getOpcode (code : Int) : Option OpCode :=
  if code = 146 then some ⟨146, "StackSpace", .InlineStackSpace, .Meta⟩
  else
    match opcodeNames.lookup code with
    | some n => some ⟨code, n, (classify n).1, (classify n).2⟩
    | none => none

def Colors.HEADER : String := "\x1b[95m"

def Colors.BLUE : String := "\x1b[94m"

def Colors.CYAN : String := "\x1b[96m"

def Colors.GREEN : String := "\x1b[92m"

def Colors.WARNING : String := "\x1b[93m"

def Colors.FAIL : String := "\x1b[91m"

def Colors.ENDC : String := "\x1b[0m"

def Colors.BOLD : String := "\x1b[1m"

def Colors.UNDERLINE : String := "\x1b[4m"

/-- `Colors.colorize`. -/
def colorize (text color : String) (use_color : Bool) : String :=
  if !use_color then text else color ++ text ++ Colors.ENDC

/-- Uppercase hex digit. -/
def hexDigitCh (d : Nat) : Char :=
  if d < 10 then Char.ofNat (48 + d) else Char.ofNat (55 + d)

/-- Hex digits of a positive number, most significant first; the fuel
(initially `n`) never runs out since `n / 16 < n ≤ fuel` when `1 ≤ n`. -/
def natHexGo : Nat → Nat → List Char
  | 0, _ => []
  | fuel + 1, n => if n = 0 then [] else natHexGo fuel (n / 16) ++ [hexDigitCh (n % 16)]

def natHexDigits (n : Nat) : List Char :=
  if n = 0 then ['0'] else natHexGo n n

/-- `format(n, 'X')` without padding. -/
def natHexStr (n : Nat) : String := ⟨natHexDigits n⟩

/-- Python `format(n, '0wX')`: upper-case hex, zero-padded to a total width
of `w` with the minus sign counting toward the width. -/
def pyHexPad (w : Nat) (n : Int) : String :=
  if n < 0 then
    ⟨'-' :: (List.replicate (w - 1 - (natHexDigits n.natAbs).length) '0' ++
      natHexDigits n.natAbs)⟩
  else
    ⟨List.replicate (w - (natHexDigits n.toNat).length) '0' ++
      natHexDigits n.toNat⟩

/-- `[\d\.]` of the Version pattern. -/
def isVerChar (c : Char) : Bool := c.isDigit || c = '.'

/-- `\w` (restricted to ASCII; the inputs of interest are ASCII type
names). -/
def isWordChar (c : Char) : Bool := c.isAlphanum || c = '_'

/-- `[\w-]` of the Culture pattern. -/
def isCultChar (c : Char) : Bool := isWordChar c || c = '-'

/-- `re.sub(lit + cls+, '', l)` for a literal pattern followed by a greedy
nonempty character class: scan left to right, drop each match, resume after
it.  The fuel (initially the length) cannot run out: every recursive call
drops at least one character. -/
def subLitGo (lit : List Char) (cls : Char → Bool) :
    Nat → List Char → List Char
  | 0, l => l
  | fuel + 1, l =>
      match l with
      | [] => []
      | c :: rest =>
          if lit.isPrefixOf (c :: rest) then
            let tail := (c :: rest).drop lit.length
            let run := tail.takeWhile cls
            if run.isEmpty then c :: subLitGo lit cls fuel rest
            else subLitGo lit cls fuel (tail.dropWhile cls)
          else c :: subLitGo lit cls fuel rest

def subLit (lit : List Char) (cls : Char → Bool) (l : List Char) : List Char :=
  subLitGo lit cls l.length l

def verLit : List Char := ", Version=".data

def cultLit : List Char := ", Culture=".data

def pktLit : List Char := ", PublicKeyToken=".data

/-- ASCII whitespace stripped by `str.strip()` (the full Python set also has
some Unicode spaces; irrelevant to the properties proved here). -/
def isPySpace (c : Char) : Bool :=
  c = ' ' || c = '\t' || c = '\n' || c = '\r' || c = '\x0b' || c = '\x0c'

/-- `str.strip()`. -/
def pyStrip (l : List Char) : List Char :=
  ((l.dropWhile isPySpace).reverse.dropWhile isPySpace).reverse

/-- `str.rfind(']')` as an option. -/
def rfindBracketIdx : List Char → Option Nat
  | [] => none
  | c :: rest =>
      match rfindBracketIdx rest with
      | some i => some (i + 1)
      | none => if c = ']' then some 0 else none

/-- Lines 484-491: non-generic names keep the text before the first comma
(stripped); names with brackets keep through the last `]` when a comma
follows it. -/
def truncateTail (l : List Char) : List Char :=
  if '[' ∈ l then
    match rfindBracketIdx l with
    | none => l
    | some last =>
        if ',' ∈ l.drop (last + 1) then l.take (last + 1) else l
  else pyStrip (l.takeWhile (fun c => c ≠ ','))

/-- The non-debug normalization inside `Disassembler._type_name`
(lines 479-491): strip `, Version=…`, `, Culture=…`, `, PublicKeyToken=…`,
then truncate. -/
def normalizeChars (l : List Char) : List Char :=
  truncateTail
    (subLit pktLit isWordChar
      (subLit cultLit isCultChar
        (subLit verLit isVerChar l)))

def normalizeName (s : String) : String := ⟨normalizeChars s.data⟩

/-- Rendering-side view of one extern-method record: the disassembler works
on the container after its byte strings have been decoded to text, so names
are `String` here (the parse model keeps the raw bytes). -/
structure RExtMethod where
  name : String
  type_id : Int
  params : List Int
  generic_args : List Int
  is_generic : Bool
deriving DecidableEq

/-- Rendering-side view of one field record. -/
structure RField where
  name : String
  type_id : Int
  is_new : Bool
deriving DecidableEq

/-- The tables of the container consulted by `Disassembler._type_name` and
`Disassembler.format_val`. -/
structure RPatch where
  ext_types : List String
  ext_methods : List RExtMethod
  intern_strings : List String
  fields : List RField
deriving DecidableEq

/-- `Disassembler._type_name`: bounds-checked lookup with normalization
unless debug mode, else the `UnknownType(id)` placeholder. -/
def typeName (rp : RPatch) (use_color debug : Bool) (idx : Int) : String :=
  if h : 0 ≤ idx ∧ idx < (rp.ext_types.length : Int) then
    let full_name := rp.ext_types.get ⟨idx.toNat, by omega⟩
    colorize (if debug then full_name else normalizeName full_name)
      Colors.CYAN use_color
  else "UnknownType(" ++ toString idx ++ ")"

/-- Exact value of an IEEE-754 binary64 bit pattern as a rational
(`struct.unpack('<d', …)`); `none` for the infinities and NaNs
(exponent field 2047). -/
def decodeF64 (bits : Nat) : Option ℚ :=
  let sign : Nat := bits / 2 ^ 63 % 2
  let expo : Nat := bits / 2 ^ 52 % 2 ^ 11
  let mant : Nat := bits % 2 ^ 52
  if expo = 2047 then none
  else
    let mag : ℚ :=
      (if expo = 0 then (mant : ℚ) * 2
       else ((2 ^ 52 + mant : Nat) : ℚ) * 2 ^ expo) / 2 ^ 1075
    some (if sign = 1 then -mag else mag)

/-- Exact value of an IEEE-754 binary32 bit pattern as a rational
(`struct.unpack('<f', …)`); `none` for the infinities and NaNs. -/
def decodeF32 (bits : Nat) : Option ℚ :=
  let sign : Nat := bits / 2 ^ 31 % 2
  let expo : Nat := bits / 2 ^ 23 % 2 ^ 8
  let mant : Nat := bits % 2 ^ 23
  if expo = 255 then none
  else
    let mag : ℚ :=
      (if expo = 0 then (mant : ℚ) * 2
       else ((2 ^ 23 + mant : Nat) : ℚ) * 2 ^ expo) / 2 ^ 150
    some (if sign = 1 then -mag else mag)

/-- Python list indexing `insts[i]`: negative indices wrap once from the
end; still-negative or too-large indices raise `IndexError` (`none`). -/
def pyGet2 (l : List (Int × Int)) (i : Int) : Option (Int × Int) :=
  if 0 ≤ i then l[i.toNat]?
  else if 0 ≤ (l.length : Int) + i then l[((l.length : Int) + i).toNat]?
  else none

/-- `', '.join` / `','.join`. -/
def joinSep (sep : String) : List String → String
  | [] => ""
  | [s] => s
  | s :: rest => s ++ sep ++ joinSep sep rest

/-- The switch-table collection loop (lines 568-579): `current_slot` runs
while below `slots_needed` (the fuel is its nonnegative part), breaking when
the slot index reaches the end of the list; each slot contributes its first
integer, and its second only while fewer than `count` targets have been
collected. -/
def collectGo (insts : List (Int × Int)) (idx count : Int) :
    Nat → Int → List Int → Except PyErr (List Int)
  | 0, _, targets => .ok targets
  | k + 1, cs, targets =>
      if (insts.length : Int) ≤ idx + 1 + cs then .ok targets
      else
        match pyGet2 insts (idx + 1 + cs) with
        | none => .error .indexErr
        | some (c, o) =>
            let t1 := targets ++ [c]
            let t2 := if (t1.length : Int) < count then t1 ++ [o] else t1
            collectGo insts idx count k (cs + 1) t2

/-- `Disassembler.format_val` (lines 496-584).  Returns the operand text and
the number of extra instruction slots consumed; `Except` carries the Python
exceptions the code can raise (negative-index `IndexError` inside the slot
lookups, `struct.error` from packing an out-of-int32 slot).  Pure
presentation of float values is out of scope and supplied by the caller:
`freprF` renders a finite binary32 value, `dreprF` a decoded binary64
(`none` = infinity/NaN), mirroring `str(float)` in the source. -/
def formatVal (rp : RPatch) (use_color debug : Bool)
    (freprF : ℚ → String) (dreprF : Option ℚ → String)
    (op_info : OpCode) (operand : Int) (idx : Int)
    (insts : List (Int × Int)) : Except PyErr (String × Int) :=
  let ot := op_info.operand_type
  if ot = OperandType.InlineNone then .ok ("", 0)
  else if ot = OperandType.InlineInt then
    let plain := toString operand
    if op_info.name.startsWith "Ldc_I4" ∧ 1000 < operand.natAbs then
      -- struct.pack('<i', operand) raises outside the int32 range and the
      -- try/except then keeps the plain integer form
      if -(2 ^ 31) ≤ operand ∧ operand < 2 ^ 31 then
        match decodeF32 (toU32 operand) with
        | none => .ok (plain, 0)
        | some q =>
            -- 7378697629483821/2^66 is the exact value of the double 0.0001
            if ((7378697629483821 : ℚ) / 2 ^ 66 < |q| ∧ |q| < 1000000) ∨
                q = 0 then
              .ok (freprF q ++ " (" ++ plain ++ ")", 0)
            else .ok (plain, 0)
      else .ok (plain, 0)
    else .ok (plain, 0)
  else if ot = OperandType.InlineString then
    let s :=
      if h : 0 ≤ operand ∧ operand < (rp.intern_strings.length : Int) then
        rp.intern_strings.get ⟨operand.toNat, by omega⟩
      else "str_" ++ toString operand
    .ok ("\"" ++ colorize s Colors.GREEN use_color ++ "\"", 0)
  else if ot = OperandType.InlineType then
    .ok (typeName rp use_color debug operand, 0)
  else if ot = OperandType.InlineMethod then
    let mid := operand % 65536
    let narg := operand.fdiv 65536
    if h : mid < (rp.ext_methods.length : Int) then
      let m := rp.ext_methods.get ⟨mid.toNat, by omega⟩
      let t := typeName rp use_color debug m.type_id
      let args :=
        if m.generic_args ≠ [] then
          "<" ++ joinSep ","
            (m.generic_args.map (typeName rp use_color debug)) ++ ">"
        else ""
      .ok (t ++ "::" ++ colorize m.name Colors.WARNING use_color ++ args, 0)
    else .ok ("method_" ++ toString mid ++ " (args=" ++ toString narg ++ ")", 0)
  else if ot = OperandType.InlineField then
    if h : 0 ≤ operand ∧ operand < (rp.fields.length : Int) then
      let f := rp.fields.get ⟨operand.toNat, by omega⟩
      .ok (typeName rp use_color debug f.type_id ++ "::" ++ f.name, 0)
    else .ok ("field_" ++ toString operand, 0)
  else if ot = OperandType.InlineBrTarget then
    .ok ("IL_" ++ pyHexPad 4 (idx + operand), 0)
  else if ot = OperandType.InlineVar then
    .ok ("V_" ++ toString operand, 0)
  else if ot = OperandType.InlineStackSpace then
    .ok ("MaxStack: " ++ toString (operand % 65536) ++ ", Locals: " ++
      toString (operand.fdiv 65536), 0)
  else if ot = OperandType.Inline8Byte then
    if idx + 1 < (insts.length : Int) then
      match pyGet2 insts (idx + 1) with
      | none => .error .indexErr
      | some (next_code, next_op) =>
          if (-(2 ^ 31) ≤ next_code ∧ next_code < 2 ^ 31) ∧
              -(2 ^ 31) ≤ next_op ∧ next_op < 2 ^ 31 then
            let bits := toU32 next_code + 4294967296 * toU32 next_op
            if op_info.name = "Ldc_R8" then
              .ok (dreprF (decodeF64 bits) ++ " (0x" ++ natHexStr bits ++ ")",
                1)
            else .ok (toString (toSigned64 bits), 1)
          else .error .structErr
    else .ok ("<EOF>", 0)
  else if ot = OperandType.InlineSwitch then
    let count := operand
    let slots_needed := (count + 1).fdiv 2
    match collectGo insts idx count slots_needed.toNat 0 [] with
    | .error e => .error e
    | .ok targets =>
        .ok ("(" ++ joinSep ", "
          (targets.map (fun t => "IL_" ++ pyHexPad 4 (idx + t))) ++ ")",
          slots_needed)
  else .ok ("", 0)

/-- `f"[{code:02X} {op:08X}] "` in debug mode. -/
def debugChunk (debug : Bool) (code op : Int) : String :=
  if debug then "[" ++ pyHexPad 2 code ++ " " ++ pyHexPad 8 op ++ "] " else ""

/-- `str.ljust`. -/
def ljust (s : String) (w : Nat) : String :=
  s ++ ⟨List.replicate (w - s.length) ' '⟩

/-- One iteration of the `while idx < len(insts)` loop of
`Disassembler.print_code` (lines 692-715): the printed line and the next
instruction index (`idx + 1 + consumed` for a known opcode, `idx + 1` for an
unknown one). -/
def loopStep (rp : RPatch) (use_color debug : Bool)
    (freprF : ℚ → String) (dreprF : Option ℚ → String)
    (insts : List (Int × Int)) (idx : Int) : Except PyErr (String × Int) :=
  match pyGet2 insts idx with
  | none => .error .indexErr
  | some (code, op) =>
      match getOpcode code with
      | some op_info =>
          match formatVal rp use_color debug freprF dreprF op_info op idx
              insts with
          | .error e => .error e
          | .ok (val_str, consumed) =>
              let mnem := colorize (ljust op_info.mnemonic 12) Colors.BLUE
                use_color
              let line :=
                if code = 146 then "  // " ++ mnem ++ " " ++ val_str
                else "  IL_" ++ pyHexPad 4 idx ++ ": " ++
                  debugChunk debug code op ++ mnem ++ " " ++ val_str
              .ok (line, idx + 1 + consumed)
      | none =>
          .ok ("  IL_" ++ pyHexPad 4 idx ++ ": " ++ debugChunk debug code op ++
            "unknown_0x" ++ pyHexPad 1 code ++ " " ++ toString op, idx + 1)

/-- The full `while` loop of `Disassembler.print_code`, with fuel: `none`
means the fuel ran out (the Python loop is still running after that many
iterations), `some (.error e)` an escaped exception, `some (.ok lines)`
normal termination with the printed lines. -/
def printLoop (rp : RPatch) (use_color debug : Bool)
    (freprF : ℚ → String) (dreprF : Option ℚ → String) :
    Nat → List (Int × Int) → Int → Option (Except PyErr (List String))
  | 0, _, _ => none
  | fuel + 1, insts, idx =>
      if idx < (insts.length : Int) then
        match loopStep rp use_color debug freprF dreprF insts idx with
        | .error e => some (.error e)
        | .ok (line, idx') =>
            match printLoop rp use_color debug freprF dreprF fuel insts idx' with
            | none => none
            | some (.error e) => some (.error e)
            | some (.ok rest) => some (.ok (line :: rest))
      else some (.ok [])


/-- Python `(count + 1) // 2` (floor division) is exactly `⌈count / 2⌉`. -/
theorem fdiv_two_eq_ceil (c : Int) : (c + 1).fdiv 2 = ⌈(c : ℚ) / 2⌉ := by
  rw [Int.fdiv_eq_ediv _ (by norm_num)]
  have h1 : 2 * ((c + 1) / 2) ≤ c + 1 := by omega
  have h3 : c ≤ 2 * ((c + 1) / 2) := by omega
  symm
  rw [Int.ceil_eq_iff]
  have q1 : 2 * (((c + 1) / 2 : Int) : ℚ) ≤ (c : ℚ) + 1 := by exact_mod_cast h1
  have q3 : (c : ℚ) ≤ 2 * (((c + 1) / 2 : Int) : ℚ) := by exact_mod_cast h3
  constructor
  · linarith
  · linarith

/-- An empty rendering-side container (used by the witnesses). -/
def rp0 : RPatch := ⟨[], [], [], []⟩

set_option maxHeartbeats 1000000 in
/-- C4: for every instruction the disassembler decodes, the next index is the
current index plus 1 plus the extra slots consumed; the extra-slot count is 0
or 1 for every operand kind except the switch table, where it is exactly
`⌈caseCount / 2⌉`; and an unknown opcode advances the index by exactly 1. -/
theorem c4_stepping (rp : RPatch) (use_color debug : Bool)
    (freprF : ℚ → String) (dreprF : Option ℚ → String)
    (insts : List (Int × Int)) (idx : Int) :
    (∀ (op_info : OpCode) (operand : Int) (s : String) (consumed : Int),
      formatVal rp use_color debug freprF dreprF op_info operand idx insts =
        .ok (s, consumed) →
      (op_info.operand_type = .InlineSwitch →
        consumed = ⌈(operand : ℚ) / 2⌉) ∧
      (op_info.operand_type ≠ .InlineSwitch →
        consumed = 0 ∨ consumed = 1)) ∧
    (∀ (code op : Int) (op_info : OpCode) (s : String) (consumed : Int),
      pyGet2 insts idx = some (code, op) →
      getOpcode code = some op_info →
      formatVal rp use_color debug freprF dreprF op_info op idx insts =
        .ok (s, consumed) →
      ∃ line, loopStep rp use_color debug freprF dreprF insts idx =
        .ok (line, idx + 1 + consumed)) ∧
    (∀ (code op : Int),
      pyGet2 insts idx = some (code, op) →
      getOpcode code = none →
      ∃ line, loopStep rp use_color debug freprF dreprF insts idx =
        .ok (line, idx + 1)) := by
  refine ⟨?_, ?_, ?_⟩
  · intro op_info operand s consumed h
    obtain ⟨c0, n0, ot0, fl0⟩ := op_info
    constructor
    · intro hsw
      simp only at hsw
      subst hsw
      simp [formatVal] at h
      split at h
      · simp at h
      · simp at h
        rw [← fdiv_two_eq_ceil]
        omega
    · intro hne
      simp only at hne
      cases ot0 with
      | InlineSwitch => exact absurd rfl hne
      | InlineNone => simp [formatVal] at h; omega
      | InlineInt =>
          simp [formatVal] at h
          repeat' split at h
          all_goals simp_all
      | InlineString =>
          simp [formatVal] at h
          omega
      | InlineType => simp [formatVal] at h; omega
      | InlineField =>
          simp [formatVal] at h
          split at h
          all_goals simp_all
      | InlineMethod =>
          simp [formatVal] at h
          split at h
          all_goals simp_all
      | InlineBrTarget => simp [formatVal] at h; omega
      | InlineTok => simp [formatVal] at h; omega
      | InlineVar => simp [formatVal] at h; omega
      | InlineStackSpace => simp [formatVal] at h; omega
      | Inline8Byte =>
          simp [formatVal] at h
          repeat' split at h
          all_goals simp_all
  · intro code op op_info s consumed h1 h2 h3
    simp only [loopStep]
    simp only [h1]
    simp only [h2]
    simp only [h3]
    exact ⟨_, rfl⟩
  · intro code op h1 h2
    simp only [loopStep]
    simp only [h1]
    simp only [h2]
    exact ⟨_, rfl⟩

/-- C4 witness: a switch with case count 0 consumes `⌈0/2⌉ = 0` extra slots,
and an unknown opcode (4) advances the index by exactly 1. -/
theorem c4_witness :
    ((0 : Int) = ⌈((0 : Int) : ℚ) / 2⌉) ∧
    (∃ line, loopStep rp0 false false (fun _ => "") (fun _ => "")
      [((4 : Int), (7 : Int))] 0 = .ok (line, 0 + 1)) :=
  ⟨((c4_stepping rp0 false false (fun _ => "") (fun _ => "")
        [((149 : Int), (0 : Int))] 0).1
      ⟨149, "Switch", .InlineSwitch, .CondBranch⟩ 0 "()" 0 rfl).1 rfl,
   (c4_stepping rp0 false false (fun _ => "") (fun _ => "")
        [((4 : Int), (7 : Int))] 0).2.2 4 7 rfl rfl⟩

/-- The first `n` packed values of a slot window: first-then-second from
each slot, the final slot contributing only its first value when `n` is
odd. -/
def takeFlat : Nat → List (Int × Int) → List Int
  | 0, _ => []
  | _ + 1, [] => []
  | 1, (c, _) :: _ => [c]
  | n + 2, (c, o) :: rest => c :: o :: takeFlat n rest

theorem takeFlat_nil (r : Nat) : takeFlat r [] = [] := by
  cases r with
  | zero => rfl
  | succ n => simp [takeFlat]

theorem takeFlat_length (r : Nat) (w : List (Int × Int)) :
    (takeFlat r w).length = min r (2 * w.length) := by
  induction w generalizing r with
  | nil => simp [takeFlat_nil]
  | cons p rest ih =>
      obtain ⟨c, o⟩ := p
      cases r with
      | zero => simp [takeFlat]
      | succ n =>
          cases n with
          | zero => simp [takeFlat]; omega
          | succ m =>
              simp only [takeFlat, List.length_cons, ih m]
              omega

/-- The collection loop computes exactly the `count`-truncated flattening of
the available slot window. -/
theorem collectGo_spec (insts : List (Int × Int)) (idx count : Int)
    (hidx : 0 ≤ idx) :
    ∀ (k : Nat) (cs : Int) (targets : List Int), 0 ≤ cs →
    2 * (k : Int) ≤ count - targets.length + 1 →
    collectGo insts idx count k cs targets =
      .ok (targets ++ takeFlat (count - targets.length).toNat
        ((insts.drop (idx + 1 + cs).toNat).take k)) := by
  intro k
  induction k with
  | zero =>
      intro cs targets h0 hinv
      simp [collectGo, takeFlat_nil]
  | succ k ih =>
      intro cs targets h0 hinv
      by_cases hbr : (insts.length : Int) ≤ idx + 1 + cs
      · have hdrop : insts.drop (idx + 1 + cs).toNat = [] := by
          rw [List.drop_eq_nil_iff]
          omega
        simp [collectGo, if_pos hbr, hdrop, takeFlat_nil]
      · push_neg at hbr
        have hj : (idx + 1 + cs).toNat < insts.length := by omega
        rcases hco : insts[(idx + 1 + cs).toNat] with ⟨c, o⟩
        have hget : pyGet2 insts (idx + 1 + cs) = some (c, o) := by
          unfold pyGet2
          rw [if_pos (by omega), List.getElem?_eq_getElem hj, hco]
        have hdropc : insts.drop (idx + 1 + cs).toNat =
            (c, o) :: insts.drop ((idx + 1 + cs).toNat + 1) := by
          rw [List.drop_eq_getElem_cons hj, hco]
        have hnext : (idx + 1 + (cs + 1)).toNat = (idx + 1 + cs).toNat + 1 := by
          omega
        simp only [collectGo,
          if_neg (by omega : ¬(insts.length : Int) ≤ idx + 1 + cs), hget]
        split
        · next hg =>
            have hlen2 : (((targets ++ [c]) ++ [o]).length : Int) =
                (targets.length : Int) + 2 := by simp
            rw [ih (cs + 1) ((targets ++ [c]) ++ [o]) (by omega)
              (by rw [hlen2]; simp only [List.length_append, List.length_cons,
                List.length_nil] at hg ⊢; push_cast at hg ⊢; omega)]
            have hr : (count - (targets.length : Int)).toNat =
                ((count - (targets.length : Int)) - 2).toNat + 2 := by
              simp only [List.length_append, List.length_cons,
                List.length_nil] at hg
              push_cast at hg
              omega
            rw [hdropc, List.take_succ_cons, hr]
            simp only [takeFlat]
            rw [hnext]
            have hm : ((count - (targets.length : Int)) - 2).toNat =
                (count - (((targets ++ [c]) ++ [o]).length : Int)).toNat := by
              simp only [List.length_append, List.length_cons, List.length_nil]
              push_cast
              omega
            rw [hm]
            simp [List.append_assoc]
        · next hg =>
            simp only [List.length_append, List.length_cons,
              List.length_nil] at hg
            push_cast at hg
            have hk : k = 0 := by omega
            have hcnt : count - (targets.length : Int) = 1 := by omega
            subst hk
            simp only [collectGo]
            rw [hdropc, List.take_succ_cons, List.take_zero, hcnt]
            simp [takeFlat]

/-- C5: a switch at index `idx` with case count `count` renders exactly the
`count`-truncated first-then-second flattening of its following slot window
(so the final slot contributes only its first value when `count` is odd, and
a short window yields only the targets collected before the end), every
label computed as `idx + delta` relative to the switch's own index; with
enough slots and a nonnegative count, exactly `count` targets are
rendered. -/
theorem c5_switch_targets (rp : RPatch) (use_color debug : Bool)
    (freprF : ℚ → String) (dreprF : Option ℚ → String)
    (insts : List (Int × Int)) (idx : Int) (hidx : 0 ≤ idx)
    (op_info : OpCode) (hot : op_info.operand_type = .InlineSwitch)
    (count : Int) :
    formatVal rp use_color debug freprF dreprF op_info count idx insts =
      .ok ("(" ++ joinSep ", "
        ((takeFlat count.toNat
          ((insts.drop (idx + 1).toNat).take ((count + 1).fdiv 2).toNat)).map
          (fun t => "IL_" ++ pyHexPad 4 (idx + t))) ++ ")",
        (count + 1).fdiv 2) ∧
    (0 ≤ count → idx + 1 + (count + 1).fdiv 2 ≤ (insts.length : Int) →
      (takeFlat count.toNat
        ((insts.drop (idx + 1).toNat).take ((count + 1).fdiv 2).toNat)).length
        = count.toNat) := by
  obtain ⟨c0, n0, ot0, fl0⟩ := op_info
  simp only at hot
  subst hot
  have he : (count + 1).fdiv 2 = (count + 1) / 2 :=
    Int.fdiv_eq_ediv _ (by norm_num)
  have hcol : collectGo insts idx count ((count + 1).fdiv 2).toNat 0 [] =
      .ok (takeFlat count.toNat
        ((insts.drop (idx + 1).toNat).take ((count + 1).fdiv 2).toNat)) := by
    by_cases hc : -1 ≤ count
    · have hinv : 2 * ((((count + 1).fdiv 2).toNat : Nat) : Int) ≤
          count - (([] : List Int).length : Int) + 1 := by
        simp only [List.length_nil, Nat.cast_zero, sub_zero]
        omega
      have hspec := collectGo_spec insts idx count hidx
        ((count + 1).fdiv 2).toNat 0 [] le_rfl hinv
      simpa using hspec
    · have hz : ((count + 1).fdiv 2).toNat = 0 := by omega
      have hz2 : count.toNat = 0 := by omega
      rw [hz, hz2]
      simp [collectGo, takeFlat_nil]
  have hfv : formatVal rp use_color debug freprF dreprF
      ⟨c0, n0, .InlineSwitch, fl0⟩ count idx insts =
      match collectGo insts idx count ((count + 1).fdiv 2).toNat 0 [] with
      | .error e => .error e
      | .ok targets =>
          .ok ("(" ++ joinSep ", "
            (targets.map (fun t => "IL_" ++ pyHexPad 4 (idx + t))) ++ ")",
            (count + 1).fdiv 2) := rfl
  constructor
  · rw [hfv, hcol]
  · intro h0 henough
    rw [takeFlat_length, List.length_take, List.length_drop]
    rw [he] at henough ⊢
    omega

/-- C5 witness: a switch with count 3 and two full following slots renders
exactly 3 targets. -/
theorem c5_witness :
    (formatVal rp0 false false (fun _ => "") (fun _ => "")
      ⟨149, "Switch", .InlineSwitch, .CondBranch⟩ 3 0
      [((149 : Int), (3 : Int)), (7, 8), (9, 10)] =
      .ok ("(" ++ joinSep ", "
        ((takeFlat (3 : Int).toNat
          (([((149 : Int), (3 : Int)), (7, 8), (9, 10)].drop
            ((0 : Int) + 1).toNat).take (((3 : Int) + 1).fdiv 2).toNat)).map
          (fun t => "IL_" ++ pyHexPad 4 (0 + t))) ++ ")",
        ((3 : Int) + 1).fdiv 2)) ∧
    (takeFlat (3 : Int).toNat
      (([((149 : Int), (3 : Int)), (7, 8), (9, 10)].drop
        ((0 : Int) + 1).toNat).take (((3 : Int) + 1).fdiv 2).toNat)).length
      = (3 : Int).toNat :=
  ⟨(c5_switch_targets rp0 false false (fun _ => "") (fun _ => "")
      [((149 : Int), (3 : Int)), (7, 8), (9, 10)] 0 (by norm_num)
      ⟨149, "Switch", .InlineSwitch, .CondBranch⟩ rfl 3).1,
   (c5_switch_targets rp0 false false (fun _ => "") (fun _ => "")
      [((149 : Int), (3 : Int)), (7, 8), (9, 10)] 0 (by norm_num)
      ⟨149, "Switch", .InlineSwitch, .CondBranch⟩ rfl 3).2 (by norm_num)
      (by decide)⟩

set_option maxHeartbeats 1000000 in
/-- C6: every rendering-time operand index that misses its table degrades to
the synthesized placeholder and the renderer returns normally (`.ok`, no
exception), so the remaining instructions keep rendering: out-of-range type
ids give `UnknownType(id)`, string ids `str_<id>` (inside the quotes the
string operand is always wrapped in), field ids `field_<id>`, and method ids
`method_<id> (args=<n>)`; each consumes 0 extra slots. -/
theorem c6_out_of_range_placeholders (rp : RPatch) (debug : Bool)
    (freprF : ℚ → String) (dreprF : Option ℚ → String)
    (idx : Int) (insts : List (Int × Int)) :
    (∀ (info : OpCode) (id : Int), info.operand_type = .InlineType →
      ¬(0 ≤ id ∧ id < (rp.ext_types.length : Int)) →
      formatVal rp false debug freprF dreprF info id idx insts =
        .ok ("UnknownType(" ++ toString id ++ ")", 0)) ∧
    (∀ (info : OpCode) (id : Int), info.operand_type = .InlineString →
      ¬(0 ≤ id ∧ id < (rp.intern_strings.length : Int)) →
      formatVal rp false debug freprF dreprF info id idx insts =
        .ok ("\"" ++ ("str_" ++ toString id) ++ "\"", 0)) ∧
    (∀ (info : OpCode) (id : Int), info.operand_type = .InlineField →
      ¬(0 ≤ id ∧ id < (rp.fields.length : Int)) →
      formatVal rp false debug freprF dreprF info id idx insts =
        .ok ("field_" ++ toString id, 0)) ∧
    (∀ (info : OpCode) (id : Int), info.operand_type = .InlineMethod →
      (rp.ext_methods.length : Int) ≤ id % 65536 →
      formatVal rp false debug freprF dreprF info id idx insts =
        .ok ("method_" ++ toString (id % 65536) ++ " (args=" ++
          toString (id.fdiv 65536) ++ ")", 0)) := by
  refine ⟨?_, ?_, ?_, ?_⟩
  · intro info id hot hcond
    obtain ⟨c0, n0, ot0, fl0⟩ := info
    simp only at hot
    subst hot
    simp [formatVal, typeName, hcond]
  · intro info id hot hcond
    obtain ⟨c0, n0, ot0, fl0⟩ := info
    simp only at hot
    subst hot
    simp [formatVal, colorize, hcond]
  · intro info id hot hcond
    obtain ⟨c0, n0, ot0, fl0⟩ := info
    simp only at hot
    subst hot
    simp [formatVal, hcond]
  · intro info id hot hcond
    obtain ⟨c0, n0, ot0, fl0⟩ := info
    simp only at hot
    subst hot
    have hc' : ¬(id % 65536 < (rp.ext_methods.length : Int)) := by omega
    simp [formatVal, hc']

/-- C6 witness: the four placeholders at out-of-range id 5 over empty
tables. -/
theorem c6_witness :
    (formatVal rp0 false false (fun _ => "") (fun _ => "")
      ⟨22, "Box", .InlineType, .Next⟩ 5 0 [] =
      .ok ("UnknownType(" ++ toString (5 : Int) ++ ")", 0)) ∧
    (formatVal rp0 false false (fun _ => "") (fun _ => "")
      ⟨39, "Ldstr", .InlineString, .Next⟩ 5 0 [] =
      .ok ("\"" ++ ("str_" ++ toString (5 : Int)) ++ "\"", 0)) ∧
    (formatVal rp0 false false (fun _ => "") (fun _ => "")
      ⟨167, "Ldfld", .InlineField, .Next⟩ 5 0 [] =
      .ok ("field_" ++ toString (5 : Int), 0)) ∧
    (formatVal rp0 false false (fun _ => "") (fun _ => "")
      ⟨45, "Call", .InlineMethod, .Call⟩ 131077 0 [] =
      .ok ("method_" ++ toString ((131077 : Int) % 65536) ++ " (args=" ++
        toString ((131077 : Int).fdiv 65536) ++ ")", 0)) :=
  ⟨(c6_out_of_range_placeholders rp0 false (fun _ => "") (fun _ => "") 0 []).1
    ⟨22, "Box", .InlineType, .Next⟩ 5 rfl (by decide),
   (c6_out_of_range_placeholders rp0 false (fun _ => "") (fun _ => "") 0
      []).2.1 ⟨39, "Ldstr", .InlineString, .Next⟩ 5 rfl (by decide),
   (c6_out_of_range_placeholders rp0 false (fun _ => "") (fun _ => "") 0
      []).2.2.1 ⟨167, "Ldfld", .InlineField, .Next⟩ 5 rfl (by decide),
   (c6_out_of_range_placeholders rp0 false (fun _ => "") (fun _ => "") 0
      []).2.2.2 ⟨45, "Call", .InlineMethod, .Call⟩ 131077 rfl (by decide)⟩

/-- The substitution never invents characters: its output is drawn from its
input. -/
theorem subLitGo_subset (lit : List Char) (cls : Char → Bool) :
    ∀ (fuel : Nat) (l : List Char) (c : Char),
    c ∈ subLitGo lit cls fuel l → c ∈ l := by
  intro fuel
  induction fuel with
  | zero => intro l c hc; exact hc
  | succ f ih =>
      intro l c hc
      cases l with
      | nil => simp [subLitGo] at hc
      | cons a rest =>
          simp only [subLitGo] at hc
          split at hc
          · split at hc
            · rcases List.mem_cons.mp hc with h | h
              · exact h ▸ List.mem_cons_self _ _
              · exact List.mem_cons_of_mem _ (ih rest c h)
            · have h1 := ih _ c hc
              have h2 : c ∈ (a :: rest).drop lit.length :=
                (List.dropWhile_suffix cls).subset h1
              exact List.mem_of_mem_drop h2
          · rcases List.mem_cons.mp hc with h | h
            · exact h ▸ List.mem_cons_self _ _
            · exact List.mem_cons_of_mem _ (ih rest c h)

/-- A pattern starting with a comma never matches inside a comma-free
string, so the substitution is the identity there. -/
theorem subLitGo_no_comma (lit' : List Char) (cls : Char → Bool) :
    ∀ (fuel : Nat) (l : List Char), ',' ∉ l →
    subLitGo (',' :: lit') cls fuel l = l := by
  intro fuel
  induction fuel with
  | zero => intro l _; rfl
  | succ f ih =>
      intro l h
      cases l with
      | nil => rfl
      | cons a rest =>
          have ha : ¬(a = ',') := fun hh => h (hh ▸ List.mem_cons_self _ _)
          have hp : ¬((',' :: lit').isPrefixOf (a :: rest) = true) := by
            rw [List.isPrefixOf_iff_prefix, List.cons_prefix_cons]
            rintro ⟨h1, -⟩
            exact ha h1.symm
          simp only [subLitGo, if_neg hp]
          rw [ih rest (fun hm => h (List.mem_cons_of_mem _ hm))]

theorem subs_subset (l : List Char) (c : Char)
    (hc : c ∈ subLit pktLit isWordChar (subLit cultLit isCultChar
      (subLit verLit isVerChar l))) : c ∈ l := by
  unfold subLit at hc
  exact subLitGo_subset _ _ _ _ _
    (subLitGo_subset _ _ _ _ _ (subLitGo_subset _ _ _ _ _ hc))

theorem subs_no_comma (l : List Char) (h : ',' ∉ l) :
    subLit pktLit isWordChar (subLit cultLit isCultChar
      (subLit verLit isVerChar l)) = l := by
  have e1 : verLit = ',' :: " Version=".data := rfl
  have e2 : cultLit = ',' :: " Culture=".data := rfl
  have e3 : pktLit = ',' :: " PublicKeyToken=".data := rfl
  unfold subLit
  rw [e1, subLitGo_no_comma _ _ _ _ h]
  rw [e2, subLitGo_no_comma _ _ _ _ h]
  rw [e3, subLitGo_no_comma _ _ _ _ h]

theorem dropWhile_idem (p : Char → Bool) (l : List Char) :
    (l.dropWhile p).dropWhile p = l.dropWhile p := by
  induction l with
  | nil => rfl
  | cons a rest ih =>
      by_cases h : p a
      · simp [List.dropWhile_cons, h, ih]
      · simp [List.dropWhile_cons, h]

theorem dropWhile_fixed_of_prefix (p : Char → Bool) (y z : List Char)
    (hz : z <+: y) (hy : y.dropWhile p = y) : z.dropWhile p = z := by
  cases z with
  | nil => rfl
  | cons a t =>
      cases y with
      | nil => simp at hz
      | cons b u =>
          rw [List.cons_prefix_cons] at hz
          obtain ⟨hab, -⟩ := hz
          subst hab
          by_cases hp : p a
          · rw [List.dropWhile_cons, if_pos hp] at hy
            have hlen := congrArg List.length hy
            have hsuf : u.dropWhile p <:+ u := List.dropWhile_suffix p
            have hle := hsuf.length_le
            simp at hlen
            omega
          · rw [List.dropWhile_cons, if_neg hp]

theorem pyStrip_subset (l : List Char) (c : Char) (hc : c ∈ pyStrip l) :
    c ∈ l := by
  unfold pyStrip at hc
  rw [List.mem_reverse] at hc
  have h1 := (List.dropWhile_suffix isPySpace).subset hc
  rw [List.mem_reverse] at h1
  exact (List.dropWhile_suffix isPySpace).subset h1

theorem pyStrip_idem (l : List Char) : pyStrip (pyStrip l) = pyStrip l := by
  unfold pyStrip
  have hls : (l.dropWhile isPySpace).dropWhile isPySpace =
      l.dropWhile isPySpace := dropWhile_idem _ _
  have hpre : ((l.dropWhile isPySpace).reverse.dropWhile isPySpace).reverse
      <+: l.dropWhile isPySpace := by
    have h0 : (l.dropWhile isPySpace).reverse.dropWhile isPySpace <:+
        (l.dropWhile isPySpace).reverse := List.dropWhile_suffix _
    have h1 := List.reverse_prefix.mpr h0
    rwa [List.reverse_reverse] at h1
  have hfix :
      (((l.dropWhile isPySpace).reverse.dropWhile isPySpace).reverse).dropWhile
        isPySpace =
      ((l.dropWhile isPySpace).reverse.dropWhile isPySpace).reverse :=
    dropWhile_fixed_of_prefix _ _ _ hpre hls
  rw [hfix, List.reverse_reverse, dropWhile_idem]

theorem takeWhile_all (p : Char → Bool) (l : List Char)
    (h : ∀ a ∈ l, p a) : l.takeWhile p = l :=
  List.takeWhile_eq_self_iff.mpr h

/-- C7 counterexample: normalization is not idempotent.  On
`A[[B, Version, Culture=c=1]]` the Culture substitution splices the name
into `A[[B, Version=1]]`, and a second normalization removes the freshly
created `, Version=1` token, giving `A[[B]]`. -/
theorem c7_counterexample :
    normalizeName (normalizeName "A[[B, Version, Culture=c=1]]") ≠
      normalizeName "A[[B, Version, Culture=c=1]]" := by decide

/-- C7 (amended): normalization is idempotent on every name that contains no
`[` (the truncation then keeps only the text before the first comma, and no
comma-anchored qualifier pattern can match again); bracketed generic
instantiations can violate idempotence. -/
theorem c7_idempotent_bracket_free (s : String) (h : '[' ∉ s.data) :
    normalizeName (normalizeName s) = normalizeName s := by
  unfold normalizeName
  simp only
  unfold normalizeChars
  set l3 := subLit pktLit isWordChar (subLit cultLit isCultChar
    (subLit verLit isVerChar s.data)) with hl3
  have hnb3 : '[' ∉ l3 := fun hc => h (subs_subset _ _ hc)
  have ht3 : truncateTail l3 =
      pyStrip (l3.takeWhile (fun c => c ≠ ',')) := by
    unfold truncateTail
    rw [if_neg hnb3]
  set t := l3.takeWhile (fun c => c ≠ ',') with htdef
  have hnc_t : ',' ∉ t := by
    intro hc
    have := List.mem_takeWhile_imp hc
    simp at this
  have hnc : ',' ∉ pyStrip t := fun hc => hnc_t (pyStrip_subset _ _ hc)
  have hnb : '[' ∉ pyStrip t := by
    intro hc
    have h1 := pyStrip_subset _ _ hc
    have h2 := (List.takeWhile_sublist (fun c => c ≠ ',')).subset h1
    exact hnb3 h2
  rw [ht3]
  rw [subs_no_comma _ hnc]
  unfold truncateTail
  rw [if_neg hnb]
  rw [takeWhile_all _ _ (fun a ha => by
    simp only [ne_eq, decide_eq_true_eq]
    intro heq
    exact hnc (heq ▸ ha))]
  exact congrArg String.mk (pyStrip_idem t)

/-- C7 witness: the amended idempotence at a bracket-free qualified name. -/
theorem c7_witness :
    normalizeName (normalizeName "System.Int32, mscorlib, Version=4.0.0.0") =
      normalizeName "System.Int32, mscorlib, Version=4.0.0.0" :=
  c7_idempotent_bracket_free "System.Int32, mscorlib, Version=4.0.0.0"
    (by decide)

/-- C8 counterexample: the slot pair `(0x40300000, 0x00000000)` does pack to
the 64-bit pattern 0x0000000040300000 (the claim's byte-order part is
right), but the IEEE double with that pattern is a subnormal, not 16.0 — so
the produced value does not equal 16.0 as claimed. -/
theorem c8_counterexample :
    toU32 1076887552 + 4294967296 * toU32 0 = 0x0000000040300000 ∧
    decodeF64 (toU32 1076887552 + 4294967296 * toU32 0) ≠ some 16 := by
  constructor
  · rfl
  · show decodeF64 1076887552 ≠ some 16
    simp only [decodeF64]
    norm_num

/-- C8 (amended): for the double-constant opcode with the slot pair
`(code=0x40300000, operand=0x00000000)` in the following slot, the two
slots' integers are reinterpreted as 8 contiguous little-endian bytes whose
64-bit pattern is 0x0000000040300000, and the produced IEEE double is the
subnormal with that pattern, exactly 0x40300000·2⁻¹⁰⁷⁴ (≈5.3e-315) — not
16.0, whose pattern would be 0x4030000000000000. -/
theorem c8_double_decoding (rp : RPatch) (use_color debug : Bool)
    (freprF : ℚ → String) (dreprF : Option ℚ → String) :
    getOpcode 100 = some ⟨100, "Ldc_R8", .Inline8Byte, .Next⟩ ∧
    formatVal rp use_color debug freprF dreprF
      ⟨100, "Ldc_R8", .Inline8Byte, .Next⟩ 0 0
      [((100 : Int), (0 : Int)), (1076887552, 0)] =
      .ok (dreprF (some ((1076887552 : ℚ) / 2 ^ 1074)) ++ " (0x" ++
        natHexStr 1076887552 ++ ")", 1) ∧
    natHexStr 1076887552 = "40300000" ∧
    decodeF64 1076887552 = some ((1076887552 : ℚ) / 2 ^ 1074) ∧
    (1076887552 : ℚ) / 2 ^ 1074 ≠ 16 := by
  have hd : decodeF64 1076887552 = some ((1076887552 : ℚ) / 2 ^ 1074) := by
    simp only [decodeF64]
    norm_num
  refine ⟨rfl, ?_, rfl, hd, by norm_num⟩
  rw [← hd]
  rfl

/-! ### C9: branch-target labels -/

/-- Value of an upper-case hex digit character. -/
def hexValD (c : Char) : Nat :=
  if c.toNat ≤ 57 then c.toNat - 48 else c.toNat - 55

/-- Numeric value of a most-significant-first hex digit list. -/
def hexNum (l : List Char) : Nat :=
  l.foldl (fun a c => 16 * a + hexValD c) 0

/-- Reads the instruction index back out of a label body produced by
`pyHexPad`: a leading minus negates the hex value of the remaining digits. -/
def decodeLabel (s : String) : Int :=
  if s.data.head? = some '-' then -(hexNum s.data.tail : Int)
  else (hexNum s.data : Nat)

theorem hexValD_hexDigitCh : ∀ d, d < 16 → hexValD (hexDigitCh d) = d := by
  decide

theorem hexDigitCh_ne_dash : ∀ d, d < 16 → hexDigitCh d ≠ '-' := by
  decide

theorem natHexGo_decode : ∀ fuel n, n ≤ fuel → ∀ acc : Nat,
    (natHexGo fuel n).foldl (fun a c => 16 * a + hexValD c) acc =
      acc * 16 ^ (natHexGo fuel n).length + n := by
  intro fuel
  induction fuel with
  | zero =>
      intro n hn acc
      have h0 : n = 0 := by omega
      subst h0
      simp [natHexGo]
  | succ f ih =>
      intro n hn acc
      by_cases h0 : n = 0
      · subst h0
        simp [natHexGo]
      · simp only [natHexGo, if_neg h0]
        rw [List.foldl_append, List.length_append,
          ih (n / 16) (by omega) acc]
        simp only [List.foldl_cons, List.foldl_nil, List.length_cons,
          List.length_nil, Nat.zero_add]
        rw [hexValD_hexDigitCh (n % 16) (Nat.mod_lt _ (by omega)),
          pow_succ, ← Nat.mul_assoc]
        have hdm := Nat.div_add_mod n 16
        generalize acc * 16 ^ (natHexGo f (n / 16)).length = Q
        omega

theorem hexNum_natHexDigits (n : Nat) : hexNum (natHexDigits n) = n := by
  unfold hexNum natHexDigits
  by_cases h : n = 0
  · subst h
    decide
  · rw [if_neg h, natHexGo_decode n n le_rfl 0]
    omega

theorem hexNum_replicate_zeros (k : Nat) (l : List Char) :
    hexNum (List.replicate k '0' ++ l) = hexNum l := by
  induction k with
  | zero => rfl
  | succ k ih =>
      unfold hexNum at ih ⊢
      rw [List.replicate_succ, List.cons_append, List.foldl_cons]
      have h0 : 16 * 0 + hexValD '0' = 0 := by decide
      rw [h0]
      exact ih

theorem natHexGo_no_dash : ∀ fuel n, '-' ∉ natHexGo fuel n := by
  intro fuel
  induction fuel with
  | zero =>
      intro n h
      simp [natHexGo] at h
  | succ f ih =>
      intro n h
      simp only [natHexGo] at h
      split at h
      · simp at h
      · rw [List.mem_append] at h
        rcases h with h | h
        · exact ih _ h
        · simp only [List.mem_singleton] at h
          exact hexDigitCh_ne_dash (n % 16) (Nat.mod_lt _ (by omega)) h.symm

theorem natHexDigits_no_dash (n : Nat) : '-' ∉ natHexDigits n := by
  unfold natHexDigits
  split
  · decide
  · exact natHexGo_no_dash n n

theorem head_ne_dash_of_not_mem (l : List Char) (h : '-' ∉ l) :
    l.head? ≠ some '-' := by
  cases l with
  | nil => simp
  | cons a t =>
      simp only [List.head?_cons, ne_eq, Option.some_inj]
      intro ha
      exact h (ha ▸ List.mem_cons_self a t)

theorem decodeLabel_dash (l : List Char) :
    decodeLabel ⟨'-' :: l⟩ = -(hexNum l : Int) := rfl

theorem decodeLabel_nodash (l : List Char) (h : '-' ∉ l) :
    decodeLabel ⟨l⟩ = (hexNum l : Int) := by
  show (if l.head? = some '-' then -(hexNum l.tail : Int)
    else ((hexNum l : Nat) : Int)) = (hexNum l : Int)
  rw [if_neg (head_ne_dash_of_not_mem l h)]

theorem decodeLabel_pyHexPad (w : Nat) (m : Int) :
    decodeLabel (pyHexPad w m) = m := by
  unfold pyHexPad
  split
  next hneg =>
    rw [decodeLabel_dash, hexNum_replicate_zeros, hexNum_natHexDigits]
    omega
  next hpos =>
    have hmem : '-' ∉ List.replicate (w - (natHexDigits m.toNat).length) '0' ++
        natHexDigits m.toNat := by
      rw [List.mem_append]
      push_neg
      refine ⟨fun hr => ?_, natHexDigits_no_dash _⟩
      have := List.eq_of_mem_replicate hr
      simp at this
    rw [decodeLabel_nodash _ hmem, hexNum_replicate_zeros, hexNum_natHexDigits]
    omega

/-- C9: for an instruction at index `i` whose operand kind is
inline-branch-target with signed operand `δ`, the renderer emits exactly
`"IL_" ++ pyHexPad 4 (i + δ)` and consumes no extra slot, and that label's
hex body decodes back to exactly `i + δ` — the label encodes the target
instruction index `i + δ`. -/
theorem c9_branch_target (rp : RPatch) (use_color debug : Bool)
    (freprF : ℚ → String) (dreprF : Option ℚ → String) (op_info : OpCode)
    (operand idx : Int) (insts : List (Int × Int))
    (h : op_info.operand_type = OperandType.InlineBrTarget) :
    formatVal rp use_color debug freprF dreprF op_info operand idx insts =
      .ok ("IL_" ++ pyHexPad 4 (idx + operand), 0) ∧
    decodeLabel (pyHexPad 4 (idx + operand)) = idx + operand := by
  refine ⟨?_, decodeLabel_pyHexPad 4 (idx + operand)⟩
  simp [formatVal, h]

/-- C9 witness: a backward branch (`Br` with delta −3 at index 1) renders
`IL_-002` and the label decodes back to −2. -/
theorem c9_witness :
    formatVal rp0 false false (fun _ => "") (fun _ => "")
      ⟨56, "Br", .InlineBrTarget, .Branch⟩ (-3) 1 [] =
      .ok ("IL_" ++ pyHexPad 4 (1 + (-3 : Int)), 0) ∧
    decodeLabel (pyHexPad 4 (1 + (-3 : Int))) = 1 + (-3 : Int) :=
  c9_branch_target rp0 false false (fun _ => "") (fun _ => "")
    ⟨56, "Br", .InlineBrTarget, .Branch⟩ (-3) 1 [] rfl

/-! ### C10: loop termination -/

/-- C10 does not hold: a Switch instruction whose case-count operand is −2
computes `consumed = (−2+1)//2 = −1` (Python floor division), so the next
index is `idx + 1 + (−1) = idx` — the index does not strictly increase and
the `while` loop re-decodes the same slot forever. For the one-slot list
`[(149, −2)]` (Switch, case count −2) starting at index 0, the loop is still
running after any number of iterations. -/
theorem c10_negative_switch_never_terminates (rp : RPatch)
    (use_color debug : Bool) (freprF : ℚ → String)
    (dreprF : Option ℚ → String) : ∀ fuel : Nat,
    printLoop rp use_color debug freprF dreprF fuel
      [((149 : Int), (-2 : Int))] 0 = none := by
  intro fuel
  induction fuel with
  | zero => rfl
  | succ f ih =>
      obtain ⟨line, hline⟩ : ∃ line, loopStep rp use_color debug freprF dreprF
          [((149 : Int), (-2 : Int))] 0 = .ok (line, 0) := ⟨_, rfl⟩
      simp only [printLoop, hline, ih]
      rw [if_pos (by decide : (0 : Int) <
        (([((149 : Int), (-2 : Int))] : List (Int × Int)).length : Int))]
